import Mathlib

/-!
Verification of the holoflows-kit reconciliation engine (`src/DOM/Watcher.ts`)
and stable-handle abstraction (`DomProxy`) against its specification.

The TypeScript source is shallowly embedded: the lodash list combinators the
watcher uses (`differenceWith`, `intersectionWith`, `uniqWith`) become Lean
list functions with the same comparer-call conventions, JS `Map` objects
become insertion-ordered association lists whose `set` replaces entries with
an identical (literal) key, and the watcher / proxy state becomes explicit
records threaded through pure transition functions.
-/

set_option maxHeartbeats 1000000

/-- lodash `differenceWith(a, b, comparator)`: the values of `a` that have no
counterpart in `b`; the comparator is invoked as `comparator(aVal, bVal)`.
Order and duplicates of `a` are preserved. -/
def differenceWith (eq : α → α → Bool) (a b : List α) : List α :=
  a.filter (fun x => !(b.any (fun y => eq x y)))

/-- Accumulator loop of lodash `intersectionWith`: each value of the first
array is skipped when an eq-duplicate is already in the result, and kept when
it has a counterpart in `b`; the comparator is invoked as
`comparator(firstArrayVal, otherVal)`. -/
def intersectionWithGo (eq : α → α → Bool) (b : List α) : List α → List α → List α
  | acc, [] => acc
  | acc, x :: xs =>
    if acc.any (fun r => eq x r) then intersectionWithGo eq b acc xs
    else if b.any (fun y => eq x y) then intersectionWithGo eq b (acc ++ [x]) xs
    else intersectionWithGo eq b acc xs

/-- lodash `intersectionWith(a, b, comparator)`: unique (under the comparator)
values of `a` that have a counterpart in `b`. -/
def intersectionWith (eq : α → α → Bool) (a b : List α) : List α :=
  intersectionWithGo eq b [] a

/-- lodash `uniqWith(a, comparator)`: duplicate-free version of `a`, keeping
the first occurrence of each comparator-class. -/
def uniqWith (eq : α → α → Bool) : List α → List α → List α
  | acc, [] => acc
  | acc, x :: xs =>
    if acc.any (fun r => eq x r) then uniqWith eq acc xs
    else uniqWith eq (acc ++ [x]) xs

/-- Watcher.ts line 241: `goneKeys = differenceWith(lastKeyList, thisKeyList, keyComparer)`. -/
def goneKeysOf (eq : α → α → Bool) (lastKeyList thisKeyList : List α) : List α :=
  differenceWith eq lastKeyList thisKeyList

/-- Watcher.ts line 262: `newKeys = differenceWith(thisKeyList, lastKeyList, keyComparer)`. -/
def newKeysOf (eq : α → α → Bool) (lastKeyList thisKeyList : List α) : List α :=
  differenceWith eq thisKeyList lastKeyList

/-- Watcher.ts line 298: `oldSameKeys = intersectionWith(lastKeyList, thisKeyList, keyComparer)`. -/
def oldSameKeysOf (eq : α → α → Bool) (lastKeyList thisKeyList : List α) : List α :=
  intersectionWith eq lastKeyList thisKeyList

/-- Watcher.ts line 299: `newSameKeys = intersectionWith(thisKeyList, lastKeyList, keyComparer)`. -/
def newSameKeysOf (eq : α → α → Bool) (lastKeyList thisKeyList : List α) : List α :=
  intersectionWith eq thisKeyList lastKeyList

/-- The paired intersection: old-side and new-side `sameKeys` lists together. -/
def sameKeysOf (eq : α → α → Bool) (lastKeyList thisKeyList : List α) : List α :=
  oldSameKeysOf eq lastKeyList thisKeyList ++ newSameKeysOf eq lastKeyList thisKeyList

/-- Membership in a list up to the key comparer. -/
def memEq (eq : α → α → Bool) (k : α) (l : List α) : Prop :=
  ∃ x ∈ l, eq k x = true

instance (eq : α → α → Bool) (k : α) (l : List α) : Decidable (memEq eq k l) :=
  List.decidableBEx _ l

theorem mem_differenceWith {eq : α → α → Bool} {a b : List α} {x : α} :
    x ∈ differenceWith eq a b ↔ x ∈ a ∧ ∀ y ∈ b, eq x y = false := by
  simp only [differenceWith, List.mem_filter, Bool.not_eq_true', List.any_eq_false,
    Bool.not_eq_true]

theorem intersectionWithGo_subset {eq : α → α → Bool} {b : List α} :
    ∀ (a acc : List α) (x : α), x ∈ intersectionWithGo eq b acc a →
      x ∈ acc ∨ (x ∈ a ∧ ∃ y ∈ b, eq x y = true) := by
  intro a
  induction a with
  | nil => intro acc x h; exact Or.inl (by simpa [intersectionWithGo] using h)
  | cons z zs ih =>
    intro acc x h
    simp only [intersectionWithGo] at h
    by_cases hseen : acc.any (fun r => eq z r) = true
    · rw [if_pos hseen] at h
      rcases ih acc x h with h1 | h2
      · exact Or.inl h1
      · exact Or.inr ⟨List.mem_cons_of_mem _ h2.1, h2.2⟩
    · rw [if_neg hseen] at h
      by_cases hinb : b.any (fun y => eq z y) = true
      · rw [if_pos hinb] at h
        rcases ih _ x h with h1 | h2
        · rcases List.mem_append.mp h1 with h1a | h1b
          · exact Or.inl h1a
          · have hx : x = z := by simpa using h1b
            subst hx
            rcases List.any_eq_true.mp hinb with ⟨y, hy, hxy⟩
            exact Or.inr ⟨List.mem_cons_self _ _, y, hy, by simpa using hxy⟩
        · exact Or.inr ⟨List.mem_cons_of_mem _ h2.1, h2.2⟩
      · rw [if_neg hinb] at h
        rcases ih acc x h with h1 | h2
        · exact Or.inl h1
        · exact Or.inr ⟨List.mem_cons_of_mem _ h2.1, h2.2⟩

theorem mem_intersectionWith {eq : α → α → Bool} {a b : List α} {x : α}
    (h : x ∈ intersectionWith eq a b) : x ∈ a ∧ ∃ y ∈ b, eq x y = true := by
  rcases intersectionWithGo_subset a [] x h with h1 | h2
  · simp at h1
  · exact h2

theorem intersectionWithGo_acc_sub {eq : α → α → Bool} {b : List α} :
    ∀ (a acc : List α) (x : α), x ∈ acc → x ∈ intersectionWithGo eq b acc a := by
  intro a
  induction a with
  | nil => intro acc x hx; simpa [intersectionWithGo] using hx
  | cons z zs ih =>
    intro acc x hx
    simp only [intersectionWithGo]
    by_cases hseen : acc.any (fun r => eq z r) = true
    · rw [if_pos hseen]; exact ih acc x hx
    · rw [if_neg hseen]
      by_cases hinb : b.any (fun y => eq z y) = true
      · rw [if_pos hinb]
        exact ih _ x (List.mem_append.mpr (Or.inl hx))
      · rw [if_neg hinb]
        exact ih acc x hx

theorem intersectionWithGo_cover {eq : α → α → Bool} {b : List α}
    (hrefl : ∀ a, eq a a = true) :
    ∀ (a acc : List α) (x : α),
      ((∃ r ∈ acc, eq x r = true) ∨ (x ∈ a ∧ ∃ y ∈ b, eq x y = true)) →
      ∃ r ∈ intersectionWithGo eq b acc a, eq x r = true := by
  intro a
  induction a with
  | nil =>
    intro acc x h
    rcases h with h | ⟨hx, _⟩
    · simpa [intersectionWithGo] using h
    · simp at hx
  | cons z zs ih =>
    intro acc x h
    simp only [intersectionWithGo]
    by_cases hseen : acc.any (fun r => eq z r) = true
    · rw [if_pos hseen]
      apply ih
      rcases h with h | ⟨hx, hxb⟩
      · exact Or.inl h
      · rcases List.mem_cons.mp hx with hxz | hxs
        · subst hxz
          rcases List.any_eq_true.mp hseen with ⟨r, hr, hxr⟩
          exact Or.inl ⟨r, hr, by simpa using hxr⟩
        · exact Or.inr ⟨hxs, hxb⟩
    · rw [if_neg hseen]
      by_cases hinb : b.any (fun y => eq z y) = true
      · rw [if_pos hinb]
        apply ih
        rcases h with h | ⟨hx, hxb⟩
        · rcases h with ⟨r, hr, hxr⟩
          exact Or.inl ⟨r, List.mem_append.mpr (Or.inl hr), hxr⟩
        · rcases List.mem_cons.mp hx with hxz | hxs
          · subst hxz
            exact Or.inl ⟨x, List.mem_append.mpr (Or.inr (by simp)), hrefl x⟩
          · exact Or.inr ⟨hxs, hxb⟩
      · rw [if_neg hinb]
        apply ih
        rcases h with h | ⟨hx, hxb⟩
        · exact Or.inl h
        · rcases List.mem_cons.mp hx with hxz | hxs
          · subst hxz
            exact absurd (List.any_eq_true.mpr
              (by rcases hxb with ⟨y, hy, hxy⟩; exact ⟨y, hy, by simpa using hxy⟩)) hinb
          · exact Or.inr ⟨hxs, hxb⟩

theorem memEq_intersectionWith {eq : α → α → Bool} {a b : List α} {x : α}
    (hrefl : ∀ a, eq a a = true)
    (hx : x ∈ a) (hxb : ∃ y ∈ b, eq x y = true) :
    memEq eq x (intersectionWith eq a b) :=
  intersectionWithGo_cover hrefl a [] x (Or.inr ⟨hx, hxb⟩)

theorem memEq_append_left {eq : α → α → Bool} {k : α} {l1 l2 : List α}
    (h : memEq eq k l1) : memEq eq k (l1 ++ l2) := by
  rcases h with ⟨x, hx, hkx⟩
  exact ⟨x, List.mem_append.mpr (Or.inl hx), hkx⟩

theorem memEq_append_right {eq : α → α → Bool} {k : α} {l1 l2 : List α}
    (h : memEq eq k l2) : memEq eq k (l1 ++ l2) := by
  rcases h with ⟨x, hx, hkx⟩
  exact ⟨x, List.mem_append.mpr (Or.inr hx), hkx⟩

/-- Claim C1: in the multi-target reconciliation pass, the computed `goneKeys`,
`newKeys` and `sameKeys` (old-side and new-side paired intersection), taken up
to the key comparer, exactly cover the union of the previous and current key
lists, and no key belongs to more than one of the three sets. -/
theorem diff_partition_complete (eq : K → K → Bool)
    (hrefl : ∀ a, eq a a = true)
    (hsymm : ∀ a b, eq a b = true → eq b a = true)
    (htrans : ∀ a b c, eq a b = true → eq b c = true → eq a c = true)
    (lastKeyList thisKeyList : List K) :
    (∀ k, k ∈ lastKeyList ∨ k ∈ thisKeyList →
      memEq eq k (goneKeysOf eq lastKeyList thisKeyList) ∨
      memEq eq k (newKeysOf eq lastKeyList thisKeyList) ∨
      memEq eq k (sameKeysOf eq lastKeyList thisKeyList)) ∧
    (∀ k, k ∈ goneKeysOf eq lastKeyList thisKeyList ++
            newKeysOf eq lastKeyList thisKeyList ++
            sameKeysOf eq lastKeyList thisKeyList →
      k ∈ lastKeyList ∨ k ∈ thisKeyList) ∧
    (∀ k, ¬(memEq eq k (goneKeysOf eq lastKeyList thisKeyList) ∧
            memEq eq k (newKeysOf eq lastKeyList thisKeyList))) ∧
    (∀ k, ¬(memEq eq k (goneKeysOf eq lastKeyList thisKeyList) ∧
            memEq eq k (sameKeysOf eq lastKeyList thisKeyList))) ∧
    (∀ k, ¬(memEq eq k (newKeysOf eq lastKeyList thisKeyList) ∧
            memEq eq k (sameKeysOf eq lastKeyList thisKeyList))) := by
  refine ⟨?_, ?_, ?_, ?_, ?_⟩
  · -- coverage
    rintro k (hk | hk)
    · by_cases hmatch : ∃ y ∈ thisKeyList, eq k y = true
      · exact Or.inr (Or.inr (memEq_append_left
          (memEq_intersectionWith hrefl hk hmatch)))
      · refine Or.inl ⟨k, ?_, hrefl k⟩
        refine mem_differenceWith.mpr ⟨hk, fun y hy => ?_⟩
        by_contra hne
        exact hmatch ⟨y, hy, eq_true_of_ne_false hne⟩
    · by_cases hmatch : ∃ x ∈ lastKeyList, eq k x = true
      · exact Or.inr (Or.inr (memEq_append_right
          (memEq_intersectionWith hrefl hk hmatch)))
      · refine Or.inr (Or.inl ⟨k, ?_, hrefl k⟩)
        refine mem_differenceWith.mpr ⟨hk, fun x hx => ?_⟩
        by_contra hne
        exact hmatch ⟨x, hx, eq_true_of_ne_false hne⟩
  · -- every partition element really comes from one of the two generations
    intro k hk
    rcases List.mem_append.mp hk with hk | hsame
    · rcases List.mem_append.mp hk with hgone | hnew
      · exact Or.inl (mem_differenceWith.mp hgone).1
      · exact Or.inr (mem_differenceWith.mp hnew).1
    · rcases List.mem_append.mp hsame with hold | hnewside
      · exact Or.inl (mem_intersectionWith hold).1
      · exact Or.inr (mem_intersectionWith hnewside).1
  · -- gone vs new
    rintro k ⟨⟨g, hg, hkg⟩, ⟨n, hn, hkn⟩⟩
    have hgprop := mem_differenceWith.mp hg
    have hnprop := mem_differenceWith.mp hn
    have hgn : eq g n = true := htrans _ _ _ (hsymm _ _ hkg) hkn
    have := hgprop.2 n hnprop.1
    simp [this] at hgn
  · -- gone vs same
    rintro k ⟨⟨g, hg, hkg⟩, ⟨s, hs, hks⟩⟩
    have hgprop := mem_differenceWith.mp hg
    have hgs : eq g s = true := htrans _ _ _ (hsymm _ _ hkg) hks
    rcases List.mem_append.mp hs with hold | hnewside
    · rcases mem_intersectionWith hold with ⟨_, y, hy, hsy⟩
      have hgy : eq g y = true := htrans _ _ _ hgs hsy
      have := hgprop.2 y hy
      simp [this] at hgy
    · have hsthis := (mem_intersectionWith hnewside).1
      have := hgprop.2 s hsthis
      simp [this] at hgs
  · -- new vs same
    rintro k ⟨⟨n, hn, hkn⟩, ⟨s, hs, hks⟩⟩
    have hnprop := mem_differenceWith.mp hn
    have hns : eq n s = true := htrans _ _ _ (hsymm _ _ hkn) hks
    rcases List.mem_append.mp hs with hold | hnewside
    · have hslast := (mem_intersectionWith hold).1
      have := hnprop.2 s hslast
      simp [this] at hns
    · rcases mem_intersectionWith hnewside with ⟨_, x, hx, hsx⟩
      have hnx : eq n x = true := htrans _ _ _ hns hsx
      have := hnprop.2 x hx
      simp [this] at hnx

/-- Witness for claim C1 at the key comparer `Nat.beq` with previous keys
`[1, 2, 3]` and current keys `[2, 3, 4]`. -/
theorem diff_partition_complete_witness :
    (∀ k, k ∈ [1, 2, 3] ∨ k ∈ [2, 3, 4] →
      memEq (fun a b : Nat => a == b) k (goneKeysOf (fun a b => a == b) [1, 2, 3] [2, 3, 4]) ∨
      memEq (fun a b : Nat => a == b) k (newKeysOf (fun a b => a == b) [1, 2, 3] [2, 3, 4]) ∨
      memEq (fun a b : Nat => a == b) k (sameKeysOf (fun a b => a == b) [1, 2, 3] [2, 3, 4])) ∧
    (∀ k, k ∈ goneKeysOf (fun a b : Nat => a == b) [1, 2, 3] [2, 3, 4] ++
            newKeysOf (fun a b : Nat => a == b) [1, 2, 3] [2, 3, 4] ++
            sameKeysOf (fun a b : Nat => a == b) [1, 2, 3] [2, 3, 4] →
      k ∈ [1, 2, 3] ∨ k ∈ [2, 3, 4]) ∧
    (∀ k, ¬(memEq (fun a b : Nat => a == b) k (goneKeysOf (fun a b => a == b) [1, 2, 3] [2, 3, 4]) ∧
            memEq (fun a b : Nat => a == b) k (newKeysOf (fun a b => a == b) [1, 2, 3] [2, 3, 4]))) ∧
    (∀ k, ¬(memEq (fun a b : Nat => a == b) k (goneKeysOf (fun a b => a == b) [1, 2, 3] [2, 3, 4]) ∧
            memEq (fun a b : Nat => a == b) k (sameKeysOf (fun a b => a == b) [1, 2, 3] [2, 3, 4]))) ∧
    (∀ k, ¬(memEq (fun a b : Nat => a == b) k (newKeysOf (fun a b => a == b) [1, 2, 3] [2, 3, 4]) ∧
            memEq (fun a b : Nat => a == b) k (sameKeysOf (fun a b => a == b) [1, 2, 3] [2, 3, 4]))) :=
  diff_partition_complete (fun a b : Nat => a == b)
    (fun a => by simp)
    (fun a b h => by simp at h; simp [h])
    (fun a b c h1 h2 => by simp at h1 h2; simp [h1, h2])
    [1, 2, 3] [2, 3, 4]

/-! ### JS `Map` objects as insertion-ordered association lists

JS `Map.set` replaces the value of an existing (SameValueZero-equal) key in
place and otherwise appends; `Map.get` returns the stored value or
`undefined`; iteration follows insertion order. -/

/-- `Map.set(k, v)`. -/
def jsMapSet [DecidableEq K] (m : List (K × V)) (k : K) (v : V) : List (K × V) :=
  if m.any (fun p => decide (p.1 = k)) then
    m.map (fun p => if p.1 = k then (k, v) else p)
  else m ++ [(k, v)]

/-- `Map.get(k)` for a map whose stored values are themselves possibly
`undefined` (`Option`-valued): a missing key and a stored `undefined` are
indistinguishable to the caller. -/
def jsMapGetOpt [DecidableEq K] (m : List (K × Option V)) (k : K) : Option V :=
  ((m.find? (fun p => decide (p.1 = k))).map (fun p => p.2)).join

/-- `[...map.keys()]` in insertion order. -/
def jsMapKeys (m : List (K × V)) : List K :=
  m.map (fun p => p.1)

/-! ### The `warning(...)` diagnostic records (Watcher.ts lines 783-801) -/

/-- The `once` option: `boolean | number`. -/
inductive OnceOpt where
  | bool (b : Bool)
  | num (n : Nat)
deriving DecidableEq

/-- JS truthiness of the `once` option value. -/
def OnceOpt.truthy : OnceOpt → Bool
  | .bool b => b
  | .num n => decide (n ≠ 0)

/-- The mutable state of one `warning(...)` object: `ignored` and the count of
times the warning actually fired (`warned`). -/
structure Warning where
  ignored : Bool
  warned : Nat
  once : OnceOpt
deriving DecidableEq

/-- Does `warn()` fire?  Source: `if (obj.ignored) return; if (warned && once)
return; if (typeof once === 'number' && warned <= once) return; warned++; f(stack)`. -/
def Warning.fires (w : Warning) : Bool :=
  if w.ignored then false
  else if decide (w.warned ≠ 0) && w.once.truthy then false
  else
    match w.once with
    | .num n => if w.warned ≤ n then false else true
    | .bool _ => true

/-- `warn()`: increment the fire count exactly when the warning fires. -/
def Warning.warn (w : Warning) : Warning :=
  if w.fires then { w with warned := w.warned + 1 } else w

/-- `warning({ once: 15, fn ... })` used for `_warning_single_mode`
(Watcher.ts lines 657-667). -/
def warningSingleModeInit : Warning :=
  { ignored := false, warned := 0, once := .num 15 }

/-- `warning({ once: true })` used for `_warning_repeated_keys`. -/
def warningRepeatedKeysInit : Warning :=
  { ignored := false, warned := 0, once := .bool true }

/-! ### The multi-target watcher state and reconciliation pass -/

/-- Which of the four event kinds have listeners (`isEventsListening`). -/
structure EventsListening where
  onIteration : Bool
  onChange : Bool
  onRemove : Bool
  onAdd : Bool
deriving DecidableEq

/-- State of a `Watcher` instance in multi-target (normal) mode.  `C` is the
opaque type of a `useForeach` callback set; stable handles (`DomProxy`
instances) are identified by allocation number, with their current
`realCurrent` binding tracked in `handleBinding`.  Map values are `Option`s
because the source stores results of `Map.get` (possibly `undefined`) and
`useForeach` factories may return `void`. -/
structure MWatcher (K T C : Type) where
  isWatching : Bool
  lastKeyList : List K
  lastNodeList : List T
  lastCallbackMap : List (K × Option C)
  lastVirtualNodesMap : List (K × Option Nat)
  nextHandleId : Nat
  handleBinding : List (Nat × Option T)
  firstVirtualNodeBinding : Option T
  keyComparer : K → K → Bool
  valueComparer : Option T → Option T → Bool
  useForeachFn : Option (Option Nat → K → Option T → Option C)
  singleModeLastValue : Option T
  singleModeHasLastValue : Bool
  warningSingleMode : Warning
  warningRepeatedKeys : Warning
  warningForgetWatch : Warning
  isEventsListening : EventsListening

/-- Observable actions of one reconciliation pass: idle-deferred removals,
callback-factory invocations, `onTargetChanged` invocations and emitted
events. -/
inductive PassAction (K T C : Type) where
  | deferredRemoval (key : K) (callbacks : Option C) (node : Option T) (handle : Option Nat)
  | factoryCall (key : K) (handle : Option Nat) (node : Option T)
  | targetChanged (key : Option K) (newNode oldNode : Option T)
  | emitIteration (currentKeys newKeys removedKeys : List K)
      (currentValues : List T) (newValues removedValues : List (Option T))
  | emitChange (oldKey : K) (newKey : Option K) (oldValue newValue : Option T)
  | emitRemove (key : K) (value : Option T)
  | emitAdd (key : K) (value : Option T)

/-- `findNodeFromListByKey` (Watcher.ts lines 204-208): first index whose key
matches under `keyComparer(listKey, soughtKey)`, then the node list at that
index (`null` when out of range or unmatched). -/
def findNodeFromListByKey (eq : K → K → Bool) (list : List T) (keys : List K) (key : K) :
    Option T :=
  match keys.findIdx? (fun x => eq x key) with
  | some i => list[i]?
  | none => none

/-- One step of the `for (const newKey of newKeys)` loop (Watcher.ts lines
264-292), threading the next-generation maps, the handle allocator and the
handle bindings.  The `MutationObserver` wiring for callback sets declaring
`onNodeMutation` has no effect on this state and is not modelled. -/
def newKeyStep [DecidableEq K] (isNode : T → Bool)
    (factory : Option Nat → K → Option T → Option C)
    (findFromNew : K → Option T)
    (acc : List (K × Option C) × List (K × Option Nat) × Nat × List (Nat × Option T) ×
      List (PassAction K T C))
    (newKey : K) :
    List (K × Option C) × List (K × Option Nat) × Nat × List (Nat × Option T) ×
      List (PassAction K T C) :=
  let (ncm, nvm, nid, hb, acts) := acc
  match findFromNew newKey with
  | some node =>
    if isNode node then
      let callbacks := factory (some nid) newKey (some node)
      (jsMapSet ncm newKey callbacks, jsMapSet nvm newKey (some nid), nid + 1,
        jsMapSet hb nid (some node),
        acts ++ [.factoryCall newKey (some nid) (some node)])
    else
      let callbacks := factory none newKey (some node)
      (jsMapSet ncm newKey callbacks, nvm, nid, hb,
        acts ++ [.factoryCall newKey none (some node)])
  | none =>
    let callbacks := factory none newKey none
    (jsMapSet ncm newKey callbacks, nvm, nid, hb,
      acts ++ [.factoryCall newKey none none])

/-- One step of the `for (const newKey of newSameKeys)` copy loop (Watcher.ts
lines 319-323): look up the old-side key for this new-side key and carry the
previous generation's callback set and virtual node forward into the
next-generation maps (`Map.get` of a missing key stores `undefined`). -/
def copySameStep [DecidableEq K] (eq : K → K → Bool) (lastCB : List (K × Option C))
    (lastVNM : List (K × Option Nat)) (oldSameKeys : List K)
    (acc : List (K × Option C) × List (K × Option Nat)) (newKey : K) :
    List (K × Option C) × List (K × Option Nat) :=
  match oldSameKeys.find? (fun oldKey => eq newKey oldKey) with
  | some oldKey =>
    (jsMapSet acc.1 newKey (jsMapGetOpt lastCB oldKey),
      jsMapSet acc.2 newKey (jsMapGetOpt lastVNM oldKey))
  | none => (jsMapSet acc.1 newKey none, jsMapSet acc.2 newKey none)

/-- Result of the whole "Key is new" loop (Watcher.ts lines 264-292):
next-generation callback map, next-generation virtual-node map, the handle
allocator, the handle bindings and the factory-call actions.  When no
`useForeach` factory is registered the loop `break`s immediately, leaving the
next-generation maps empty. -/
def passNewAcc [DecidableEq K] (isNode : T → Bool) (s : MWatcher K T C)
    (gen : List (K × T)) :
    List (K × Option C) × List (K × Option Nat) × Nat × List (Nat × Option T) ×
      List (PassAction K T C) :=
  match s.useForeachFn with
  | none => (([] : List (K × Option C)), ([] : List (K × Option Nat)), s.nextHandleId,
      s.handleBinding, ([] : List (PassAction K T C)))
  | some factory =>
    (differenceWith s.keyComparer (gen.map (fun p => p.1)) s.lastKeyList).foldl
      (newKeyStep isNode factory
        (findNodeFromListByKey s.keyComparer (gen.map (fun p => p.2))
          (gen.map (fun p => p.1))))
      ([], [], s.nextHandleId, s.handleBinding, [])

/-- `normalModeWatcherCallback` (Watcher.ts lines 210-369) as a pure
transition on the watcher state, taking the evaluated generation as a list of
(derived key, target) pairs and returning the new state together with the
pass's observable actions.  Removal callbacks and handle destruction for gone
keys are deferred through `requestIdleCallback` and therefore only recorded,
not applied. -/
def normalModePass [DecidableEq K] (isNode : T → Bool) (s : MWatcher K T C)
    (gen : List (K × T)) : MWatcher K T C × List (PassAction K T C) :=
  let currentIteration : List T := gen.map (fun p => p.2)
  let thisKeyList : List K := gen.map (fun p => p.1)
  let eq := s.keyComparer
  -- warn about repeated keys
  let warningRepeatedKeys1 :=
    if (uniqWith eq [] thisKeyList).length < thisKeyList.length then
      s.warningRepeatedKeys.warn
    else s.warningRepeatedKeys
  -- region "Key is gone": deferred removal callbacks + handle destruction
  let findFromLast := findNodeFromListByKey eq s.lastNodeList s.lastKeyList
  let goneKeys := differenceWith eq s.lastKeyList thisKeyList
  let deferredActions : List (PassAction K T C) := goneKeys.map (fun oldKey =>
    .deferredRemoval oldKey (jsMapGetOpt s.lastCallbackMap oldKey) (findFromLast oldKey)
      (jsMapGetOpt s.lastVirtualNodesMap oldKey))
  -- region "Key is new": fresh handles + factory calls (skipped wholesale
  -- when no useForeach factory is registered, matching the loop's `break`)
  let findFromNew := findNodeFromListByKey eq currentIteration thisKeyList
  let newKeys := differenceWith eq thisKeyList s.lastKeyList
  let newAcc := passNewAcc isNode s gen
  let nextCallbackMap1 := newAcc.1
  let nextVirtualNodesMap1 := newAcc.2.1
  let nextHandleId1 := newAcc.2.2.1
  let handleBinding1 := newAcc.2.2.2.1
  let factoryActions := newAcc.2.2.2.2
  -- region "Key is the same, but node is changed"
  let oldSameKeys := intersectionWith eq s.lastKeyList thisKeyList
  let newSameKeys := intersectionWith eq thisKeyList s.lastKeyList
  let changedNodes : List (Option T × Option T × K × Option K) :=
    (oldSameKeys.map (fun x =>
      (findFromLast x, findFromNew x, x, newSameKeys.find? (fun newK => eq newK x)))).filter
      (fun q => decide (s.valueComparer q.1 q.2.1 = false))
  let handleBinding2 := changedNodes.foldl (fun hb q =>
    match q.2.1 with
    | some n =>
      if isNode n then
        match jsMapGetOpt s.lastVirtualNodesMap q.2.2.1 with
        | some hid => jsMapSet hb hid (some n)
        | none => hb
      else hb
    | none => hb) handleBinding1
  let changedActions : List (PassAction K T C) := changedNodes.map (fun q =>
    .targetChanged (some q.2.2.1) q.2.1 q.1)
  -- region "Final: Copy the same keys"
  let copied := newSameKeys.foldl
    (copySameStep eq s.lastCallbackMap s.lastVirtualNodesMap oldSameKeys)
    (nextCallbackMap1, nextVirtualNodesMap1)
  -- events
  let iterationActions : List (PassAction K T C) :=
    if s.isEventsListening.onIteration &&
        decide (0 < changedNodes.length + goneKeys.length + newKeys.length) then
      [.emitIteration thisKeyList newKeys goneKeys currentIteration
        (newKeys.map findFromNew) (goneKeys.map findFromLast)]
    else []
  let changeActions : List (PassAction K T C) :=
    if s.isEventsListening.onChange then
      changedNodes.map (fun q => .emitChange q.2.2.1 q.2.2.2 q.1 q.2.1)
    else []
  let removeActions : List (PassAction K T C) :=
    if s.isEventsListening.onRemove then
      goneKeys.map (fun k => .emitRemove k (findFromLast k))
    else []
  let addActions : List (PassAction K T C) :=
    if s.isEventsListening.onAdd then
      newKeys.map (fun k => .emitAdd k (findFromNew k))
    else []
  -- firstVirtualNode: rebind to current[0] when it is a node, unbind when the
  -- generation starts with nothing, otherwise leave unchanged
  let firstBinding :=
    match currentIteration.head? with
    | some t => if isNode t then some t else s.firstVirtualNodeBinding
    | none => none
  -- prompt developer to open single mode
  let warningSingleMode1 :=
    if 1 < currentIteration.length then { s.warningSingleMode with ignored := true }
    else if currentIteration.length = 1 then s.warningSingleMode.warn
    else s.warningSingleMode
  ({ s with
      lastCallbackMap := copied.1
      lastVirtualNodesMap := copied.2
      lastKeyList := thisKeyList
      lastNodeList := currentIteration
      nextHandleId := nextHandleId1
      handleBinding := handleBinding2
      firstVirtualNodeBinding := firstBinding
      warningRepeatedKeys := warningRepeatedKeys1
      warningSingleMode := warningSingleMode1 },
    deferredActions ++ factoryActions ++ changedActions ++ iterationActions ++
      changeActions ++ removeActions ++ addActions)

/-- `getVirtualNodeByKey` (Watcher.ts lines 628-634): find the first map key
matching under `keyComparer(mapKey, soughtKey)`, then `Map.get` it. -/
def getVirtualNodeByKey [DecidableEq K] (s : MWatcher K T C) (key : K) : Option Nat :=
  match (jsMapKeys s.lastVirtualNodesMap).find? (fun mk => s.keyComparer mk key) with
  | some mk => jsMapGetOpt s.lastVirtualNodesMap mk
  | none => none

/-- `stopWatch` (Watcher.ts lines 42-44): only flips the watching flag. -/
def stopWatch (s : MWatcher K T C) : MWatcher K T C :=
  { s with isWatching := false }

/-- `startWatch` (Watcher.ts lines 35-40) followed by the `watcherChecker`
run it triggers on a multi-mode instance whose query evaluates to `gen`. -/
def startWatchRun [DecidableEq K] (isNode : T → Bool) (s : MWatcher K T C)
    (gen : List (K × T)) : MWatcher K T C × List (PassAction K T C) :=
  normalModePass isNode
    { s with
        isWatching := true
        warningForgetWatch := { s.warningForgetWatch with ignored := true } }
    gen

/-- Claim C9: `stopWatch` changes only the watching flag; all retained
previous-generation state survives, so a later `startWatch` runs its pass
against exactly the state (and hence the generation diff) it would have used
had the stop never happened. -/
theorem stopWatch_only_flips_watching_flag [DecidableEq K] (isNode : T → Bool)
    (s : MWatcher K T C) :
    (stopWatch s).isWatching = false ∧
    (stopWatch s).lastKeyList = s.lastKeyList ∧
    (stopWatch s).lastNodeList = s.lastNodeList ∧
    (stopWatch s).lastCallbackMap = s.lastCallbackMap ∧
    (stopWatch s).lastVirtualNodesMap = s.lastVirtualNodesMap ∧
    (stopWatch s).singleModeLastValue = s.singleModeLastValue ∧
    (stopWatch s).singleModeHasLastValue = s.singleModeHasLastValue ∧
    (∀ gen, startWatchRun isNode (stopWatch s) gen = startWatchRun isNode s gen) :=
  ⟨rfl, rfl, rfl, rfl, rfl, rfl, rfl, fun _ => rfl⟩

/-! ### Association-list (`Map`) lemmas -/

theorem jsMapKeys_append (m1 m2 : List (K × V)) :
    jsMapKeys (m1 ++ m2) = jsMapKeys m1 ++ jsMapKeys m2 := by
  simp [jsMapKeys]

theorem jsMapKeys_set_of_mem [DecidableEq K] {m : List (K × V)} {k : K} (v : V)
    (h : (m.any (fun p => decide (p.1 = k))) = true) :
    jsMapKeys (jsMapSet m k v) = jsMapKeys m := by
  simp only [jsMapSet, if_pos h, jsMapKeys, List.map_map]
  apply List.map_congr_left
  intro p _
  by_cases hp : p.1 = k
  · simp [hp]
  · simp [hp]

theorem jsMapKeys_set_of_not_mem [DecidableEq K] {m : List (K × V)} {k : K} (v : V)
    (h : ¬(m.any (fun p => decide (p.1 = k))) = true) :
    jsMapKeys (jsMapSet m k v) = jsMapKeys m ++ [k] := by
  simp only [jsMapSet, if_neg h, jsMapKeys, List.map_append, List.map_cons, List.map_nil]

theorem mem_jsMapKeys_set [DecidableEq K] {m : List (K × V)} {k x : K} {v : V}
    (h : x ∈ jsMapKeys (jsMapSet m k v)) : x ∈ jsMapKeys m ∨ x = k := by
  by_cases hmem : (m.any (fun p => decide (p.1 = k))) = true
  · rw [jsMapKeys_set_of_mem v hmem] at h
    exact Or.inl h
  · rw [jsMapKeys_set_of_not_mem v hmem] at h
    rcases List.mem_append.mp h with h | h
    · exact Or.inl h
    · exact Or.inr (by simpa using h)

theorem any_key_eq_false_iff [DecidableEq K] {m : List (K × V)} {k : K} :
    (m.any (fun p => decide (p.1 = k))) = false ↔ ¬k ∈ jsMapKeys m := by
  constructor
  · intro h hk
    rcases List.mem_map.mp hk with ⟨p, hp, hpk⟩
    have := List.any_eq_false.mp h p hp
    simp [hpk] at this
  · intro h
    apply List.any_eq_false.mpr
    intro p hp
    simp only [decide_eq_true_eq]
    intro hpk
    exact h (List.mem_map.mpr ⟨p, hp, hpk⟩)

theorem find?_map_replace_same [DecidableEq K] {m : List (K × V)} {k : K} (v : V)
    (hmem : (m.any (fun p => decide (p.1 = k))) = true) :
    List.find? (fun p => decide (p.1 = k)) (m.map (fun p => if p.1 = k then (k, v) else p)) =
      some (k, v) := by
  induction m with
  | nil => simp at hmem
  | cons q qs ih =>
    simp only [List.map_cons]
    by_cases hq : q.1 = k
    · rw [if_pos hq]
      simp [List.find?_cons]
    · rw [if_neg hq]
      have hqf : (decide (q.1 = k)) = false := by simpa using hq
      rw [List.find?_cons, hqf]
      apply ih
      rcases List.any_eq_true.mp hmem with ⟨p, hp, hpk⟩
      rcases List.mem_cons.mp hp with hpq | hps
      · subst hpq; simp only [decide_eq_true_eq] at hpk; exact absurd hpk hq
      · exact List.any_eq_true.mpr ⟨p, hps, hpk⟩

theorem find?_map_replace_other [DecidableEq K] {m : List (K × V)} {k k2 : K} (v : V)
    (h : ¬k = k2) :
    List.find? (fun p => decide (p.1 = k)) (m.map (fun p => if p.1 = k2 then (k2, v) else p)) =
      List.find? (fun p => decide (p.1 = k)) m := by
  induction m with
  | nil => simp
  | cons q qs ih =>
    simp only [List.map_cons]
    by_cases hq : q.1 = k2
    · rw [if_pos hq]
      have h1 : (decide ((k2, v).1 = k)) = false := by
        simp only [decide_eq_false_iff_not]
        exact fun hh => h hh.symm
      have h2 : (decide (q.1 = k)) = false := by
        simp only [decide_eq_false_iff_not]
        intro hh
        exact h (by rw [← hh, hq])
      rw [List.find?_cons, h1, List.find?_cons, h2]
      exact ih
    · rw [if_neg hq]
      rw [List.find?_cons, List.find?_cons]
      cases hqk : (decide (q.1 = k)) with
      | true => rfl
      | false => exact ih

theorem jsMapGetOpt_set_same [DecidableEq K] (m : List (K × Option V)) (k : K) (v : Option V) :
    jsMapGetOpt (jsMapSet m k v) k = v := by
  by_cases hmem : (m.any (fun p => decide (p.1 = k))) = true
  · simp only [jsMapSet, if_pos hmem, jsMapGetOpt]
    rw [find?_map_replace_same v hmem]
    simp
  · simp only [jsMapSet, if_neg hmem, jsMapGetOpt, List.find?_append]
    have hnone : m.find? (fun p => decide (p.1 = k)) = none := by
      apply List.find?_eq_none.mpr
      intro p hp
      simp only [decide_eq_true_eq]
      intro hpk
      exact hmem (List.any_eq_true.mpr ⟨p, hp, by simpa using hpk⟩)
    simp [hnone]

theorem jsMapGetOpt_set_other [DecidableEq K] (m : List (K × Option V)) {k k2 : K}
    (v : Option V) (h : ¬k = k2) :
    jsMapGetOpt (jsMapSet m k2 v) k = jsMapGetOpt m k := by
  by_cases hmem : (m.any (fun p => decide (p.1 = k2))) = true
  · simp only [jsMapSet, if_pos hmem, jsMapGetOpt]
    rw [find?_map_replace_other v h]
  · simp only [jsMapSet, if_neg hmem, jsMapGetOpt, List.find?_append]
    have hap : List.find? (fun p => decide (p.1 = k)) [(k2, v)] = none := by
      have : (decide ((k2, v).1 = k)) = false := by
        simp only [decide_eq_false_iff_not]
        exact fun hh => h hh.symm
      simp [List.find?_cons, this]
    cases hfound : m.find? (fun p => decide (p.1 = k)) with
    | some p => simp [hfound]
    | none => simp [hfound, hap]

/-- Repeated `Map.set` with values computed from the key alone. -/
def mapSetFold [DecidableEq K] (f : K → Option V) (keys : List K)
    (m : List (K × Option V)) : List (K × Option V) :=
  keys.foldl (fun acc k => jsMapSet acc k (f k)) m

theorem mapSetFold_keys_subset [DecidableEq K] (f : K → Option V) :
    ∀ (keys : List K) (m : List (K × Option V)) (x : K),
      x ∈ jsMapKeys (mapSetFold f keys m) → x ∈ jsMapKeys m ∨ x ∈ keys := by
  intro keys
  induction keys with
  | nil => intro m x h; exact Or.inl (by simpa [mapSetFold] using h)
  | cons k2 rest ih =>
    intro m x h
    simp only [mapSetFold, List.foldl_cons] at h
    rcases ih (jsMapSet m k2 (f k2)) x h with h1 | h2
    · rcases mem_jsMapKeys_set h1 with h1a | h1b
      · exact Or.inl h1a
      · exact Or.inr (by simp [h1b])
    · exact Or.inr (List.mem_cons_of_mem _ h2)

theorem mapSetFold_get_of_not_mem [DecidableEq K] (f : K → Option V) :
    ∀ (keys : List K) (m : List (K × Option V)) (k : K),
      (∀ x ∈ keys, ¬x = k) →
      jsMapGetOpt (mapSetFold f keys m) k = jsMapGetOpt m k := by
  intro keys
  induction keys with
  | nil => intro m k _; simp [mapSetFold]
  | cons k2 rest ih =>
    intro m k hne
    have hstep : mapSetFold f (k2 :: rest) m = mapSetFold f rest (jsMapSet m k2 (f k2)) := rfl
    rw [hstep, ih (jsMapSet m k2 (f k2)) k (fun x hx => hne x (List.mem_cons_of_mem _ hx))]
    exact jsMapGetOpt_set_other m (f k2) (fun hh => hne k2 (by simp) hh.symm)

theorem mapSetFold_get_of_mem [DecidableEq K] (f : K → Option V) :
    ∀ (keys : List K) (m : List (K × Option V)) (k : K),
      k ∈ keys → keys.Nodup →
      jsMapGetOpt (mapSetFold f keys m) k = f k := by
  intro keys
  induction keys with
  | nil => intro m k hk; simp at hk
  | cons k2 rest ih =>
    intro m k hk hnodup
    have hstep : mapSetFold f (k2 :: rest) m = mapSetFold f rest (jsMapSet m k2 (f k2)) := rfl
    rw [hstep]
    rcases List.mem_cons.mp hk with hk2 | hkr
    · subst hk2
      have hnotin : ¬k ∈ rest := (List.nodup_cons.mp hnodup).1
      rw [mapSetFold_get_of_not_mem f rest _ k (fun x hx hxk => hnotin (hxk ▸ hx))]
      exact jsMapGetOpt_set_same m k (f k)
    · exact ih _ k hkr (List.nodup_cons.mp hnodup).2

/-- The output of `intersectionWith` is pairwise distinct in the sense that a
later element is never comparer-equal to an earlier one. -/
theorem intersectionWithGo_pairwise {eq : α → α → Bool} {b : List α} :
    ∀ (a acc : List α), acc.Pairwise (fun r x => eq x r = false) →
      (intersectionWithGo eq b acc a).Pairwise (fun r x => eq x r = false) := by
  intro a
  induction a with
  | nil => intro acc h; simpa [intersectionWithGo] using h
  | cons z zs ih =>
    intro acc h
    simp only [intersectionWithGo]
    by_cases hseen : acc.any (fun r => eq z r) = true
    · rw [if_pos hseen]; exact ih acc h
    · rw [if_neg hseen]
      by_cases hinb : b.any (fun y => eq z y) = true
      · rw [if_pos hinb]
        apply ih
        rw [List.pairwise_append]
        refine ⟨h, List.pairwise_singleton _ _, ?_⟩
        intro r hr x hx
        have hxz : x = z := by simpa using hx
        subst hxz
        have hseenf : (acc.any (fun r => eq x r)) = false := by
          simpa using hseen
        have := List.any_eq_false.mp hseenf r hr
        simpa using this
      · rw [if_neg hinb]; exact ih acc h

theorem intersectionWith_pairwise {eq : α → α → Bool} {a b : List α} :
    (intersectionWith eq a b).Pairwise (fun r x => eq x r = false) :=
  intersectionWithGo_pairwise a [] (List.Pairwise.nil)

theorem intersectionWith_nodup {eq : α → α → Bool} {a b : List α}
    (hrefl : ∀ x, eq x x = true) : (intersectionWith eq a b).Nodup := by
  have hp : (intersectionWith eq a b).Pairwise (fun r x => eq x r = false) :=
    intersectionWith_pairwise
  refine List.Pairwise.imp ?_ hp
  intro x y hxy
  intro he
  subst he
  simp [hrefl x] at hxy

/-- Two comparer-equal members of a comparer-pairwise-distinct list are the
same value. -/
theorem eq_of_pairwise_distinct {eq : α → α → Bool} {l : List α} {a b : α}
    (hsymm : ∀ x y, eq x y = true → eq y x = true)
    (hl : l.Pairwise (fun x y => eq x y = false))
    (ha : a ∈ l) (hb : b ∈ l) (hab : eq a b = true) : a = b := by
  by_contra hne
  have hsym : Symmetric (fun x y : α => eq x y = false) := by
    intro x y hxy
    by_contra hyx
    have := hsymm y x (Bool.eq_true_of_not_eq_false hyx)
    simp [this] at hxy
  have := hl.forall hsym ha hb hne
  simp [hab] at this

theorem foldl_prod_split {A B L : Type} (step : A × B → L → A × B) (f : A → L → A)
    (g : B → L → B) (hstep : ∀ acc k, step acc k = (f acc.1 k, g acc.2 k)) :
    ∀ (l : List L) (a : A) (b : B),
      l.foldl step (a, b) = (l.foldl f a, l.foldl g b) := by
  intro l
  induction l with
  | nil => intro a b; rfl
  | cons k ks ih =>
    intro a b
    simp only [List.foldl_cons, hstep]
    exact ih (f a k) (g b k)

/-- Value stored by the copy loop into the next callback map for one
`newSameKey`. -/
def copyCBVal [DecidableEq K] (eq : K → K → Bool) (lastCB : List (K × Option C))
    (oldSame : List K) (newKey : K) : Option C :=
  match oldSame.find? (fun oldKey => eq newKey oldKey) with
  | some oldKey => jsMapGetOpt lastCB oldKey
  | none => none

/-- Value stored by the copy loop into the next virtual-node map for one
`newSameKey`. -/
def copyVNMVal [DecidableEq K] (eq : K → K → Bool) (lastVNM : List (K × Option Nat))
    (oldSame : List K) (newKey : K) : Option Nat :=
  match oldSame.find? (fun oldKey => eq newKey oldKey) with
  | some oldKey => jsMapGetOpt lastVNM oldKey
  | none => none

/-- The next-generation callback map produced by the "Key is new" loop. -/
def passNCM1 [DecidableEq K] (isNode : T → Bool) (s : MWatcher K T C)
    (gen : List (K × T)) : List (K × Option C) :=
  (passNewAcc isNode s gen).1

/-- The next-generation virtual-node map produced by the "Key is new" loop. -/
def passNVM1 [DecidableEq K] (isNode : T → Bool) (s : MWatcher K T C)
    (gen : List (K × T)) : List (K × Option Nat) :=
  (passNewAcc isNode s gen).2.1

theorem normalModePass_keyComparer [DecidableEq K] (isNode : T → Bool)
    (s : MWatcher K T C) (gen : List (K × T)) :
    (normalModePass isNode s gen).1.keyComparer = s.keyComparer := rfl

theorem normalModePass_lastKeyList [DecidableEq K] (isNode : T → Bool)
    (s : MWatcher K T C) (gen : List (K × T)) :
    (normalModePass isNode s gen).1.lastKeyList = gen.map (fun p => p.1) := rfl

/-- The next virtual-node map of a pass is the new-keys map followed by one
`Map.set` per `newSameKey` with the value copied from the previous map. -/
theorem normalModePass_vnm [DecidableEq K] (isNode : T → Bool) (s : MWatcher K T C)
    (gen : List (K × T)) :
    (normalModePass isNode s gen).1.lastVirtualNodesMap =
      mapSetFold
        (copyVNMVal s.keyComparer s.lastVirtualNodesMap
          (intersectionWith s.keyComparer s.lastKeyList (gen.map (fun p => p.1))))
        (intersectionWith s.keyComparer (gen.map (fun p => p.1)) s.lastKeyList)
        (passNVM1 isNode s gen) := by
  have hsplit := foldl_prod_split
    (copySameStep s.keyComparer s.lastCallbackMap s.lastVirtualNodesMap
      (intersectionWith s.keyComparer s.lastKeyList (gen.map (fun p => p.1))))
    (fun m newKey => jsMapSet m newKey
      (copyCBVal s.keyComparer s.lastCallbackMap
        (intersectionWith s.keyComparer s.lastKeyList (gen.map (fun p => p.1))) newKey))
    (fun m newKey => jsMapSet m newKey
      (copyVNMVal s.keyComparer s.lastVirtualNodesMap
        (intersectionWith s.keyComparer s.lastKeyList (gen.map (fun p => p.1))) newKey))
    (fun acc k => by
      simp only [copyCBVal, copyVNMVal, copySameStep]
      cases hf : (intersectionWith s.keyComparer s.lastKeyList
          (gen.map (fun p => p.1))).find? (fun oldKey => s.keyComparer k oldKey) with
      | some oldKey => simp only [hf]
      | none => simp only [hf])
    (intersectionWith s.keyComparer (gen.map (fun p => p.1)) s.lastKeyList)
    (passNCM1 isNode s gen) (passNVM1 isNode s gen)
  have hdef : (normalModePass isNode s gen).1.lastVirtualNodesMap =
      ((intersectionWith s.keyComparer (gen.map (fun p => p.1)) s.lastKeyList).foldl
        (copySameStep s.keyComparer s.lastCallbackMap s.lastVirtualNodesMap
          (intersectionWith s.keyComparer s.lastKeyList (gen.map (fun p => p.1))))
        (passNCM1 isNode s gen, passNVM1 isNode s gen)).2 := rfl
  rw [hdef, hsplit]
  rfl

theorem newKeyStep_foldl_nvm_keys [DecidableEq K] (isNode : T → Bool)
    (factory : Option Nat → K → Option T → Option C) (ffn : K → Option T) :
    ∀ (l : List K)
      (acc : List (K × Option C) × List (K × Option Nat) × Nat × List (Nat × Option T) ×
        List (PassAction K T C)) (x : K),
      x ∈ jsMapKeys ((l.foldl (newKeyStep isNode factory ffn) acc).2.1) →
      x ∈ jsMapKeys acc.2.1 ∨ x ∈ l := by
  intro l
  induction l with
  | nil => intro acc x h; exact Or.inl (by simpa using h)
  | cons k ks ih =>
    intro acc x h
    obtain ⟨ncm, nvm, nid, hb, acts⟩ := acc
    simp only [List.foldl_cons] at h
    rcases ih (newKeyStep isNode factory ffn (ncm, nvm, nid, hb, acts) k) x h with h1 | h2
    · cases hf : ffn k with
      | some node =>
        by_cases hn : isNode node = true
        · simp only [newKeyStep, hf, if_pos hn] at h1
          rcases mem_jsMapKeys_set h1 with ha | hb
          · exact Or.inl ha
          · exact Or.inr (by simp [hb])
        · simp only [newKeyStep, hf, if_neg hn] at h1
          exact Or.inl h1
      | none =>
        simp only [newKeyStep, hf] at h1
        exact Or.inl h1
    · exact Or.inr (List.mem_cons_of_mem _ h2)

theorem passNVM1_keys_subset [DecidableEq K] (isNode : T → Bool) (s : MWatcher K T C)
    (gen : List (K × T)) (x : K) (h : x ∈ jsMapKeys (passNVM1 isNode s gen)) :
    x ∈ differenceWith s.keyComparer (gen.map (fun p => p.1)) s.lastKeyList := by
  unfold passNVM1 passNewAcc at h
  cases hufe : s.useForeachFn with
  | none => rw [hufe] at h; simp [jsMapKeys] at h
  | some factory =>
    rw [hufe] at h
    rcases newKeyStep_foldl_nvm_keys isNode factory _ _ _ x h with h1 | h2
    · simp [jsMapKeys] at h1
    · exact h2

/-- One reconciliation pass preserves the virtual-node-map invariant: every
map key is a literal member of the retained key list. -/
theorem normalModePass_vnm_keys_in_lastKeyList [DecidableEq K] (isNode : T → Bool)
    (s : MWatcher K T C) (gen : List (K × T)) (p : K × Option Nat)
    (hp : p ∈ (normalModePass isNode s gen).1.lastVirtualNodesMap) :
    p.1 ∈ (normalModePass isNode s gen).1.lastKeyList := by
  rw [normalModePass_lastKeyList]
  have hkey : p.1 ∈ jsMapKeys (normalModePass isNode s gen).1.lastVirtualNodesMap :=
    List.mem_map.mpr ⟨p, hp, rfl⟩
  rw [normalModePass_vnm] at hkey
  rcases mapSetFold_keys_subset _ _ _ _ hkey with h1 | h2
  · have := passNVM1_keys_subset isNode s gen _ h1
    exact (mem_differenceWith.mp this).1
  · exact (mem_intersectionWith h2).1

theorem mapSetFold_keys_of_disjoint [DecidableEq K] (f : K → Option V) :
    ∀ (keys : List K) (m : List (K × Option V)),
      (∀ x ∈ keys, ¬x ∈ jsMapKeys m) → keys.Nodup →
      jsMapKeys (mapSetFold f keys m) = jsMapKeys m ++ keys := by
  intro keys
  induction keys with
  | nil => intro m _ _; simp [mapSetFold]
  | cons k rest ih =>
    intro m hdisj hnodup
    have hstep : mapSetFold f (k :: rest) m = mapSetFold f rest (jsMapSet m k (f k)) := rfl
    rw [hstep]
    have hnot : ¬(m.any (fun p => decide (p.1 = k))) = true := by
      rw [Bool.not_eq_true]
      exact any_key_eq_false_iff.mpr (hdisj k (by simp))
    have hkeys1 : jsMapKeys (jsMapSet m k (f k)) = jsMapKeys m ++ [k] :=
      jsMapKeys_set_of_not_mem (f k) hnot
    rw [ih (jsMapSet m k (f k)) ?_ (List.nodup_cons.mp hnodup).2]
    · rw [hkeys1, List.append_assoc]
      rfl
    · intro x hx
      rw [hkeys1]
      intro hmem
      rcases List.mem_append.mp hmem with h1 | h2
      · exact hdisj x (List.mem_cons_of_mem _ hx) h1
      · have : x = k := by simpa using h2
        exact (List.nodup_cons.mp hnodup).1 (this ▸ hx)

/-- Auxiliary step for claim C2: a single reconciliation pass returns the same
virtual node (`DomProxy`) for a key whose comparer-class is present in both
the previous and the current generation. -/
theorem getVirtualNodeByKey_preserved [DecidableEq K] (isNode : T → Bool)
    (s : MWatcher K T C) (gen : List (K × T)) (k : K) (hID : Nat)
    (hrefl : ∀ a, s.keyComparer a a = true)
    (hsymm : ∀ a b, s.keyComparer a b = true → s.keyComparer b a = true)
    (htrans : ∀ a b c, s.keyComparer a b = true → s.keyComparer b c = true →
      s.keyComparer a c = true)
    (hinv : ∀ p ∈ s.lastVirtualNodesMap, p.1 ∈ s.lastKeyList)
    (hlastU : s.lastKeyList.Pairwise (fun a b => s.keyComparer a b = false))
    (hpres : ∃ y ∈ gen.map (fun p => p.1), s.keyComparer y k = true)
    (hget : getVirtualNodeByKey s k = some hID) :
    getVirtualNodeByKey (normalModePass isNode s gen).1 k = some hID := by
  unfold getVirtualNodeByKey at hget
  cases hfind0 : (jsMapKeys s.lastVirtualNodesMap).find? (fun mk => s.keyComparer mk k) with
  | none => rw [hfind0] at hget; exact absurd hget (by simp)
  | some mk =>
    rw [hfind0] at hget
    have hmkk : s.keyComparer mk k = true := by
      have := List.find?_some hfind0
      simpa using this
    have hmkmem : mk ∈ jsMapKeys s.lastVirtualNodesMap := List.mem_of_find?_eq_some hfind0
    have hmkL : mk ∈ s.lastKeyList := by
      rcases List.mem_map.mp hmkmem with ⟨p, hp, hpk⟩
      exact hpk ▸ hinv p hp
    rcases hpres with ⟨y, hy, hyk⟩
    have hymk : s.keyComparer y mk = true := htrans y k mk hyk (hsymm mk k hmkk)
    have hmky : s.keyComparer mk y = true := htrans mk k y hmkk (hsymm y k hyk)
    -- shorthand for the pass's sets
    have hnodupNS : (intersectionWith s.keyComparer (gen.map (fun p => p.1))
        s.lastKeyList).Nodup := intersectionWith_nodup hrefl
    have hdisj : ∀ x ∈ intersectionWith s.keyComparer (gen.map (fun p => p.1)) s.lastKeyList,
        ¬x ∈ jsMapKeys (passNVM1 isNode s gen) := by
      intro x hx hxm
      have hxnew := passNVM1_keys_subset isNode s gen x hxm
      rcases mem_intersectionWith hx with ⟨_, l, hl, hxl⟩
      have := (mem_differenceWith.mp hxnew).2 l hl
      simp [this] at hxl
    have hpre : ∀ x ∈ jsMapKeys (passNVM1 isNode s gen),
        (s.keyComparer x k) = false := by
      intro x hx
      have hxnew := passNVM1_keys_subset isNode s gen x hx
      by_contra hne
      have hxk : s.keyComparer x k = true := eq_true_of_ne_false hne
      have hxmk : s.keyComparer x mk = true := htrans x k mk hxk (hsymm mk k hmkk)
      have := (mem_differenceWith.mp hxnew).2 mk hmkL
      simp [this] at hxmk
    have hkeys : jsMapKeys ((normalModePass isNode s gen).1.lastVirtualNodesMap) =
        jsMapKeys (passNVM1 isNode s gen) ++
          intersectionWith s.keyComparer (gen.map (fun p => p.1)) s.lastKeyList := by
      rw [normalModePass_vnm]
      exact mapSetFold_keys_of_disjoint _ _ _ hdisj hnodupNS
    -- the first matching key in the new map comes from the newSameKeys block
    have hnone1 : (jsMapKeys (passNVM1 isNode s gen)).find?
        (fun mk => s.keyComparer mk k) = none := by
      apply List.find?_eq_none.mpr
      intro x hx
      simp [hpre x hx]
    have hexist : ∃ r ∈ intersectionWith s.keyComparer (gen.map (fun p => p.1))
        s.lastKeyList, s.keyComparer y r = true :=
      memEq_intersectionWith hrefl hy ⟨mk, hmkL, hymk⟩
    cases hfindr : (intersectionWith s.keyComparer (gen.map (fun p => p.1))
        s.lastKeyList).find? (fun mk => s.keyComparer mk k) with
    | none =>
      exfalso
      rcases hexist with ⟨r0, hr0, hyr0⟩
      have hr0k : s.keyComparer r0 k = true :=
        htrans r0 y k (hsymm y r0 hyr0) hyk
      have := List.find?_eq_none.mp hfindr r0 hr0
      simp [hr0k] at this
    | some r =>
      have hrk : s.keyComparer r k = true := by
        have := List.find?_some hfindr
        simpa using this
      have hrNS : r ∈ intersectionWith s.keyComparer (gen.map (fun p => p.1))
          s.lastKeyList := List.mem_of_find?_eq_some hfindr
      have hfindTotal : (jsMapKeys (passNVM1 isNode s gen) ++
          intersectionWith s.keyComparer (gen.map (fun p => p.1)) s.lastKeyList).find?
          (fun mk => s.keyComparer mk k) = some r := by
        rw [List.find?_append, hnone1, hfindr]
        rfl
      unfold getVirtualNodeByKey
      rw [normalModePass_keyComparer, hkeys, hfindTotal]
      show jsMapGetOpt ((normalModePass isNode s gen).1.lastVirtualNodesMap) r = some hID
      rw [normalModePass_vnm]
      rw [mapSetFold_get_of_mem _ _ _ _ hrNS hnodupNS]
      -- the copied value comes from the old-side key, which is comparer-equal
      -- to the map key found before the pass, hence literally equal to it
      unfold copyVNMVal
      have hexisto : ∃ o ∈ intersectionWith s.keyComparer s.lastKeyList
          (gen.map (fun p => p.1)), s.keyComparer mk o = true :=
        memEq_intersectionWith hrefl hmkL ⟨y, hy, hmky⟩
      cases hfindo : (intersectionWith s.keyComparer s.lastKeyList
          (gen.map (fun p => p.1))).find? (fun oldKey => s.keyComparer r oldKey) with
      | none =>
        exfalso
        rcases hexisto with ⟨o, ho, hmko⟩
        have hrmk : s.keyComparer r mk = true := htrans r k mk hrk (hsymm mk k hmkk)
        have hro : s.keyComparer r o = true := htrans r mk o hrmk hmko
        have := List.find?_eq_none.mp hfindo o ho
        simp [hro] at this
      | some ok =>
        have hrok : s.keyComparer r ok = true := by
          have := List.find?_some hfindo
          simpa using this
        have hokOS : ok ∈ intersectionWith s.keyComparer s.lastKeyList
            (gen.map (fun p => p.1)) := List.mem_of_find?_eq_some hfindo
        have hokL : ok ∈ s.lastKeyList := (mem_intersectionWith hokOS).1
        have hokmk : s.keyComparer ok mk = true := by
          have hokr : s.keyComparer ok r = true := hsymm r ok hrok
          have hokk : s.keyComparer ok k = true := htrans ok r k hokr hrk
          exact htrans ok k mk hokk (hsymm mk k hmkk)
        have hokeq : ok = mk := eq_of_pairwise_distinct hsymm hlastU hokL hmkL hokmk
        rw [hokeq]
        exact hget

/-- A fresh multi-mode watcher instance over `Nat` keys and targets with the
default comparers and a registered `useForeach` factory. -/
def mwInitNat : MWatcher Nat Nat Unit where
  isWatching := false
  lastKeyList := []
  lastNodeList := []
  lastCallbackMap := []
  lastVirtualNodesMap := []
  nextHandleId := 0
  handleBinding := []
  firstVirtualNodeBinding := none
  keyComparer := fun a b => a == b
  valueComparer := fun a b => a == b
  useForeachFn := some (fun _ _ _ => some ())
  singleModeLastValue := none
  singleModeHasLastValue := false
  warningSingleMode := warningSingleModeInit
  warningRepeatedKeys := warningRepeatedKeysInit
  warningForgetWatch := { ignored := false, warned := 0, once := .bool true }
  isEventsListening := ⟨false, false, false, false⟩

/-- The state of `mwInitNat` after one pass that saw key 5 bound to target 10. -/
def mwAfterFirst : MWatcher Nat Nat Unit :=
  (normalModePass (fun _ => true) mwInitNat [(5, 10)]).1

/-- Claim C2: for a Key whose comparer-class is present in every one of N
consecutive reconciliation passes (regardless of how its bound Target changes
between passes), `getVirtualNodeByKey` returns the identical stable handle
after every one of those passes: the pass only rebinds the handle, it never
replaces the handle instance.  Stated for a key comparer that is an
equivalence, generations without comparer-duplicate keys, and a state whose
virtual-node map keys all belong to the retained key list (as every state
reached by passes from a fresh instance does). -/
theorem handle_identity_stability [DecidableEq K] (isNode : T → Bool)
    (s : MWatcher K T C) (gens : List (List (K × T))) (k : K) (hID : Nat)
    (hrefl : ∀ a, s.keyComparer a a = true)
    (hsymm : ∀ a b, s.keyComparer a b = true → s.keyComparer b a = true)
    (htrans : ∀ a b c, s.keyComparer a b = true → s.keyComparer b c = true →
      s.keyComparer a c = true)
    (hinv : ∀ p ∈ s.lastVirtualNodesMap, p.1 ∈ s.lastKeyList)
    (hlastU : s.lastKeyList.Pairwise (fun a b => s.keyComparer a b = false))
    (hgens : ∀ gen ∈ gens,
      (gen.map (fun p => p.1)).Pairwise (fun a b => s.keyComparer a b = false) ∧
      ∃ y ∈ gen.map (fun p => p.1), s.keyComparer y k = true)
    (hget : getVirtualNodeByKey s k = some hID) :
    getVirtualNodeByKey
      (gens.foldl (fun st gen => (normalModePass isNode st gen).1) s) k = some hID := by
  induction gens generalizing s with
  | nil => simpa using hget
  | cons g gs ih =>
    simp only [List.foldl_cons]
    apply ih (normalModePass isNode s g).1 hrefl hsymm htrans
      (fun p hp => normalModePass_vnm_keys_in_lastKeyList isNode s g p hp)
      (hgens g (by simp)).1
      (fun gen hgen => hgens gen (List.mem_cons_of_mem _ hgen))
    exact getVirtualNodeByKey_preserved isNode s g k hID hrefl hsymm htrans hinv hlastU
      (hgens g (by simp)).2 hget

/-- Witness for claim C2: key 5 stays bound to handle 0 across two further
passes that rebind its target from 10 to 11 to 12. -/
theorem handle_identity_stability_witness :
    getVirtualNodeByKey
      (([[(5, 11)], [(5, 12)]] : List (List (Nat × Nat))).foldl
        (fun st gen => (normalModePass (fun _ => true) st gen).1) mwAfterFirst) 5 =
      some 0 :=
  handle_identity_stability (fun _ => true) mwAfterFirst [[(5, 11)], [(5, 12)]] 5 0
    (fun a => by show (a == a) = true; simp)
    (fun a b h => by
      have h0 : (a == b) = true := h
      have h2 : a = b := by simpa using h0
      show (b == a) = true
      simp [h2])
    (fun a b c h1 h2 => by
      have h01 : (a == b) = true := h1
      have h02 : (b == c) = true := h2
      have g1 : a = b := by simpa using h01
      have g2 : b = c := by simpa using h02
      show (a == c) = true
      simp [g1, g2])
    (by decide)
    (by decide)
    (by decide)
    (by decide)

theorem normalModePass_warningSingleMode [DecidableEq K] (isNode : T → Bool)
    (s : MWatcher K T C) (gen : List (K × T)) :
    (normalModePass isNode s gen).1.warningSingleMode =
      (if 1 < (gen.map (fun p => p.2)).length then
        { s.warningSingleMode with ignored := true }
      else if (gen.map (fun p => p.2)).length = 1 then s.warningSingleMode.warn
      else s.warningSingleMode) := rfl

/-- Claim C8 (against the code): a multi-mode pass observing exactly one
Target calls `_warning_single_mode.warn()`, but with the configured
`once: 15` the guard `typeof once === 'number' && warned <= once` returns
before `warned` is ever incremented, so the suggestion never fires and the
warning state is left completely unchanged — for every pass, forever. -/
theorem single_mode_suggestion_never_fires [DecidableEq K] (isNode : T → Bool)
    (s : MWatcher K T C) (gen : List (K × T)) (n : Nat)
    (honce : s.warningSingleMode.once = OnceOpt.num n)
    (hwarned : s.warningSingleMode.warned ≤ n)
    (hlen : gen.length = 1) :
    (normalModePass isNode s gen).1.warningSingleMode = s.warningSingleMode := by
  have hfires : s.warningSingleMode.fires = false := by
    unfold Warning.fires
    rw [honce]
    by_cases hig : s.warningSingleMode.ignored
    · simp [hig]
    · simp only [hig, if_false, Bool.false_eq_true]
      split
      · rfl
      · simp [hwarned]
  have hwarn : s.warningSingleMode.warn = s.warningSingleMode := by
    unfold Warning.warn
    rw [hfires]
    simp
  rw [normalModePass_warningSingleMode]
  have hl : (gen.map (fun p => p.2)).length = 1 := by simpa using hlen
  rw [hl]
  simp [hwarn]

/-- Witness for claim C8's code evaluation: the fresh instance's pass over a
single-target generation leaves `_warning_single_mode` untouched. -/
theorem single_mode_suggestion_never_fires_witness :
    (normalModePass (fun _ => true) mwInitNat [(1, 1)]).1.warningSingleMode =
      mwInitNat.warningSingleMode :=
  single_mode_suggestion_never_fires (fun _ => true) mwInitNat [(1, 1)] 15
    rfl (by decide) rfl

/-! ### The watcher-check scheduler (Watcher.ts lines 602-620)

`scheduleWatcherCheck` guards `watcherChecker` behind
`isWatcherCheckerRunning`; a request arriving while a check runs only sets
`needCheckerRunAgainAfterCurrentSchedule`.  Because the `while` loop's body
unconditionally clears that flag at its end, the loop body executes at most
once per schedule; the model below inlines that single iteration.  `reqs n`
is the number of re-entrant schedule requests arriving while pass number `n`
executes (each such request sees `isWatcherCheckerRunning === true`). -/

structure SchedState where
  isWatcherCheckerRunning : Bool
  needCheckerRunAgainAfterCurrentSchedule : Bool
  passes : Nat
deriving DecidableEq

/-- One `watcherChecker()` run: performs the pass and accumulates the flag
set by any re-entrant schedule request arriving during it. -/
def runChecker (reqs : Nat → Nat) (s : SchedState) : SchedState :=
  { s with
      passes := s.passes + 1
      needCheckerRunAgainAfterCurrentSchedule :=
        s.needCheckerRunAgainAfterCurrentSchedule || decide (0 < reqs s.passes) }

/-- `scheduleWatcherCheck`. -/
def scheduleWatcherCheck (reqs : Nat → Nat) (s : SchedState) : SchedState :=
  if s.isWatcherCheckerRunning then
    { s with needCheckerRunAgainAfterCurrentSchedule := true }
  else
    let s1 := runChecker reqs { s with isWatcherCheckerRunning := true }
    let s2 :=
      if s1.needCheckerRunAgainAfterCurrentSchedule then
        { runChecker reqs s1 with needCheckerRunAgainAfterCurrentSchedule := false }
      else s1
    { s2 with isWatcherCheckerRunning := false }

/-- Requests arrive during pass 0 and during pass 1 (the follow-up pass). -/
def reqsTwice : Nat → Nat := fun n => if n ≤ 1 then 1 else 0

/-- Counterexample to claim C7 as stated: with one request during the initial
pass and one during the follow-up pass, the schedule finishes idle after two
passes — the request that arrived during the follow-up pass is dropped
(`needCheckerRunAgainAfterCurrentSchedule` is cleared after the follow-up
run), so it is not coalesced into a follow-up pass of its own, which would
have made three passes. -/
theorem schedule_followup_request_dropped :
    scheduleWatcherCheck reqsTwice ⟨false, false, 0⟩ = ⟨false, false, 2⟩ ∧
    ¬(scheduleWatcherCheck reqsTwice ⟨false, false, 0⟩).passes = 3 := by
  constructor
  · rfl
  · decide

/-- Claim C7 as amended: from an idle state, one schedule runs the pass once,
plus exactly one follow-up pass when (and only when) requests arrived during
the initial pass; requests arriving during the follow-up pass are dropped.
The schedule always finishes idle with no backlog, and a request arriving
while a check is running never starts a pass itself — it only sets the
coalescing flag. -/
theorem schedule_coalesces_to_one_followup (reqs : Nat → Nat) (s : SchedState)
    (hrun : s.isWatcherCheckerRunning = false)
    (hflag : s.needCheckerRunAgainAfterCurrentSchedule = false) :
    (scheduleWatcherCheck reqs s).passes =
      s.passes + 1 + (if 0 < reqs s.passes then 1 else 0) ∧
    (scheduleWatcherCheck reqs s).isWatcherCheckerRunning = false ∧
    (scheduleWatcherCheck reqs s).needCheckerRunAgainAfterCurrentSchedule = false ∧
    (∀ s2 : SchedState, s2.isWatcherCheckerRunning = true →
      (scheduleWatcherCheck reqs s2).passes = s2.passes) := by
  refine ⟨?_, ?_, ?_, ?_⟩
  · unfold scheduleWatcherCheck runChecker
    rw [if_neg (by simp [hrun])]
    simp only [hflag, Bool.false_or]
    by_cases hreq : 0 < reqs s.passes
    · simp [hreq]
    · simp [hreq]
  · unfold scheduleWatcherCheck runChecker
    rw [if_neg (by simp [hrun])]
  · unfold scheduleWatcherCheck runChecker
    rw [if_neg (by simp [hrun])]
    simp only [hflag, Bool.false_or]
    by_cases hreq : 0 < reqs s.passes
    · simp [hreq]
    · simp [hreq]
  · intro s2 hs2
    unfold scheduleWatcherCheck
    rw [if_pos (by simp [hs2])]

/-- Witness for the amended claim C7 at a schedule whose initial pass receives
one re-entrant request. -/
theorem schedule_coalesces_to_one_followup_witness :
    (scheduleWatcherCheck (fun _ => 1) ⟨false, false, 0⟩).passes =
      0 + 1 + (if 0 < (fun _ : Nat => 1) 0 then 1 else 0) ∧
    (scheduleWatcherCheck (fun _ => 1) ⟨false, false, 0⟩).isWatcherCheckerRunning = false ∧
    (scheduleWatcherCheck (fun _ => 1)
      ⟨false, false, 0⟩).needCheckerRunAgainAfterCurrentSchedule = false ∧
    (∀ s2 : SchedState, s2.isWatcherCheckerRunning = true →
      (scheduleWatcherCheck (fun _ => 1) s2).passes = s2.passes) :=
  schedule_coalesces_to_one_followup (fun _ => 1) ⟨false, false, 0⟩ rfl rfl

/-! ### The `then` (await) contract, Watcher.ts lines 147-192

`LiveSelector.evaluateOnce` itself is outside the embedded sources. -/

/-- Modelled from the spec: the missing `LiveSelector.evaluateOnce` returns an
ordered sequence of Targets in multi mode and a single Target — possibly
absent — in single-cardinality mode ("`evaluateOnce() -> Target |
ordered-sequence-of-Target` (shape depends on cardinality mode)"). -/
inductive EvalResult (T : Type) where
  | arr (l : List T)
  | single (v : Option T)
deriving DecidableEq

/-- `Array.isArray(result)`. -/
def EvalResult.isArray : EvalResult T → Bool
  | .arr _ => true
  | .single _ => false

/-- `result.length` when it is an array. -/
def EvalResult.arrLength : EvalResult T → Nat
  | .arr l => l.length
  | .single _ => 0

/-- Outcome of the first (synchronous) evaluation inside the async `then()`
closure: a `TypeError` rejection, an immediate resolution, or suspension on a
Promise waiting for `onIteration` events. -/
inductive ThenOutcome (T R : Type) where
  | rejectsConfigError
  | resolvesMapped (l : List R)
  | resolvesRaw (v : EvalResult T)
  | waitsForIteration
deriving DecidableEq

/-- What `then()`'s synchronous prefix did: the outcome, whether the
single-mode threshold diagnostic was printed, and whether the watcher was
started (the `starter` runs only in the Promise branch). -/
structure ThenStep (T R : Type) where
  outcome : ThenOutcome T R
  warnedThresholdIgnored : Bool
  startedWatcher : Bool
deriving DecidableEq

/-- The synchronous prefix of `then` (Watcher.ts lines 160-190): reject on
`minimalResultsRequired < 1`; warn when single mode ignores a threshold > 1;
resolve with the mapped array when the one evaluation yields enough results;
in single mode resolve immediately with the raw evaluation result; otherwise
start the watcher and wait for `onIteration`. -/
def thenFirstStep (singleMode : Bool) (minimalResultsRequired : Int) (f : T → R)
    (result : EvalResult T) : ThenStep T R :=
  if minimalResultsRequired < 1 then
    { outcome := .rejectsConfigError, warnedThresholdIgnored := false,
      startedWatcher := false }
  else
    let warned := singleMode && decide (1 < minimalResultsRequired)
    if result.isArray && decide (minimalResultsRequired ≤ (result.arrLength : Int)) then
      { outcome := .resolvesMapped ((match result with
          | .arr l => l
          | .single _ => []).map f),
        warnedThresholdIgnored := warned, startedWatcher := false }
    else if singleMode then
      { outcome := .resolvesRaw result, warnedThresholdIgnored := warned,
        startedWatcher := false }
    else
      { outcome := .waitsForIteration, warnedThresholdIgnored := warned,
        startedWatcher := true }

/-- Claim C4: awaiting with `minimalResultsRequired` below 1 rejects
immediately with the configuration `TypeError` (nothing is evaluated, warned
or started); with a valid threshold, when the one query evaluation already
yields at least `minimalResultsRequired` results, the await resolves at once
with those results mapped through the transform, without starting the watcher
for a further pass. -/
theorem await_threshold_contract (singleMode : Bool) (mr : Int) (f : T → R)
    (result : EvalResult T) (l : List T) :
    (mr < 1 →
      thenFirstStep singleMode mr f result =
        { outcome := .rejectsConfigError, warnedThresholdIgnored := false,
          startedWatcher := false }) ∧
    (1 ≤ mr → (mr ≤ (l.length : Int)) →
      (thenFirstStep singleMode mr f (.arr l)).outcome = .resolvesMapped (l.map f) ∧
      (thenFirstStep singleMode mr f (.arr l)).startedWatcher = false) := by
  constructor
  · intro hmr
    unfold thenFirstStep
    rw [if_pos hmr]
  · intro hmr hlen
    have hnot : ¬mr < 1 := by omega
    have hcond : ((EvalResult.arr l).isArray &&
        decide (mr ≤ ((EvalResult.arr l).arrLength : Int))) = true := by
      simp [EvalResult.isArray, EvalResult.arrLength, hlen]
    constructor
    · unfold thenFirstStep
      rw [if_neg hnot, if_pos hcond]
    · unfold thenFirstStep
      rw [if_neg hnot, if_pos hcond]

/-- Witness for claim C4: threshold 0 rejects; threshold 3 with 5 matches
resolves immediately with the mapped values and does not start the watcher. -/
theorem await_threshold_contract_witness :
    thenFirstStep false 0 (fun x : Nat => x + 1) (.arr [1, 2, 3, 4, 5]) =
      { outcome := .rejectsConfigError, warnedThresholdIgnored := false,
        startedWatcher := false } ∧
    (thenFirstStep false 3 (fun x : Nat => x + 1) (.arr [1, 2, 3, 4, 5])).outcome =
      .resolvesMapped ([1, 2, 3, 4, 5].map (fun x => x + 1)) ∧
    (thenFirstStep false 3 (fun x : Nat => x + 1)
      (.arr [1, 2, 3, 4, 5])).startedWatcher = false :=
  ⟨(await_threshold_contract false 0 (fun x : Nat => x + 1) (.arr [1, 2, 3, 4, 5])
      [1, 2, 3, 4, 5]).1 (by decide),
    ((await_threshold_contract false 3 (fun x : Nat => x + 1) (.arr [1, 2, 3, 4, 5])
      [1, 2, 3, 4, 5]).2 (by decide) (by decide)).1,
    ((await_threshold_contract false 3 (fun x : Nat => x + 1) (.arr [1, 2, 3, 4, 5])
      [1, 2, 3, 4, 5]).2 (by decide) (by decide)).2⟩

/-- Counterexample to claim C5 as stated: in single mode with no value
present (`evaluateOnce()` returns `undefined`), the await does not wait — it
resolves immediately with the raw `undefined` result, because `then` returns
`result` unconditionally in its single-mode branch. -/
theorem await_single_mode_absent_resolves :
    (thenFirstStep true 1 (fun x : Nat => x) (.single none)).outcome =
      .resolvesRaw (.single none) ∧
    ¬(thenFirstStep true 1 (fun x : Nat => x) (.single none)).outcome =
      ThenOutcome.waitsForIteration := by
  constructor
  · rfl
  · decide

/-- Claim C5 as amended: in single mode (with a valid threshold and the
single-shaped evaluation result) the await resolves immediately with whatever
the evaluation yields — the present value when one exists, or `undefined`
when none — never waiting for a further pass; the threshold is ignored, with
the diagnostic printed exactly when a threshold above 1 was requested. -/
theorem await_single_mode_resolves_immediately (mr : Int) (f : T → R)
    (v : Option T) (hmr : 1 ≤ mr) :
    (thenFirstStep true mr f (.single v)).outcome = .resolvesRaw (.single v) ∧
    (thenFirstStep true mr f (.single v)).startedWatcher = false ∧
    (thenFirstStep true mr f (.single v)).warnedThresholdIgnored =
      decide (1 < mr) := by
  have hnot : ¬mr < 1 := by omega
  have hcond : ¬((EvalResult.single v).isArray &&
      decide (mr ≤ (((EvalResult.single v).arrLength : Nat) : Int))) = true := by
    simp [EvalResult.isArray]
  refine ⟨?_, ?_, ?_⟩
  · unfold thenFirstStep
    rw [if_neg hnot, if_neg hcond, if_pos rfl]
  · unfold thenFirstStep
    rw [if_neg hnot, if_neg hcond, if_pos rfl]
  · unfold thenFirstStep
    rw [if_neg hnot, if_neg hcond, if_pos rfl]
    simp

/-- Witness for the amended claim C5 at threshold 2 and an absent value. -/
theorem await_single_mode_resolves_immediately_witness :
    (thenFirstStep true 2 (fun x : Nat => x) (.single none)).outcome =
      .resolvesRaw (.single none) ∧
    (thenFirstStep true 2 (fun x : Nat => x) (.single none)).startedWatcher = false ∧
    (thenFirstStep true 2 (fun x : Nat => x)
      (.single (none : Option Nat))).warnedThresholdIgnored = decide ((1 : Int) < 2) :=
  await_single_mode_resolves_immediately 2 (fun x : Nat => x) none (by omega)

/-! ### Single-cardinality mode (Watcher.ts lines 408-463)

The single-mode pass branches on JS truthiness, `isNil` and `instanceof
Node`, so its value type is modelled as a small universe of JS values. -/

inductive JSVal where
  | undef
  | jsNull
  | bool (b : Bool)
  | num (n : Int)
  | nan
  | str (s : String)
  | node (id : Nat)
  | obj (id : Nat)
deriving DecidableEq

/-- JS truthiness: `undefined`, `null`, `false`, `0`, `NaN` and the empty
string are falsy; every object (including every DOM node) is truthy. -/
def JSVal.truthy : JSVal → Bool
  | .undef => false
  | .jsNull => false
  | .bool b => b
  | .num n => decide (n ≠ 0)
  | .nan => false
  | .str s => decide (s ≠ "")
  | .node _ => true
  | .obj _ => true

/-- lodash `isNil`: `undefined` or `null`. -/
def JSVal.isNil : JSVal → Bool
  | .undef => true
  | .jsNull => true
  | _ => false

/-- `value instanceof Node`. -/
def JSVal.isNode : JSVal → Bool
  | .node _ => true
  | _ => false

/-- State of a single-mode watcher instance: the tracked last value, the
saved callback set, and the binding of `firstVirtualNode` (`realCurrent`). -/
structure SingleWatcher (C : Type) where
  singleModeLastValue : Option JSVal
  singleModeHasLastValue : Bool
  singleModeCallback : Option C
  firstVirtualNodeBinding : Option JSVal
  useForeachFn : Option (JSVal → Option C)
  valueComparer : JSVal → JSVal → Bool

/-- Observable actions of one single-mode pass. -/
inductive SMAction where
  | factoryInvoked (v : JSVal)
  | callbackRemove (v : JSVal)
  | callbackTargetChange (newV oldV : JSVal)
  | emitRemove (v : JSVal)
  | emitAdd (v : JSVal)
  | emitChange (newV oldV : JSVal)
deriving DecidableEq

/-- `singleModeWatcherCallback` (Watcher.ts lines 408-463): bind
`firstVirtualNode` for `undefined` / Node inputs, then branch on
gone / new / changed / unchanged.  The callback set is recorded opaquely; the
factory receives `(firstVirtualNode, value, value)` for Node values and
`(value, undefined)` otherwise, a distinction (and the accompanying
`onNodeMutation` diagnostic for non-node values) that only affects the
callback set's construction, which stays abstract here. -/
def singleModeWatcherCallback (s : SingleWatcher C) (firstValue : JSVal) :
    SingleWatcher C × List SMAction :=
  let s0 :=
    if firstValue = .undef then { s with firstVirtualNodeBinding := none } else s
  let s1 :=
    if firstValue.isNode then { s0 with firstVirtualNodeBinding := some firstValue }
    else s0
  -- Case: value is gone
  if s1.singleModeHasLastValue && firstValue.isNil then
    let oldValue := s1.singleModeLastValue.getD .undef
    let s2 :=
      if oldValue.isNode then { s1 with firstVirtualNodeBinding := none } else s1
    ({ s2 with singleModeLastValue := none, singleModeHasLastValue := false },
      [.callbackRemove oldValue, .emitRemove oldValue])
  -- Case: value is new
  else if !s1.singleModeHasLastValue && firstValue.truthy then
    match s1.useForeachFn with
    | some factory =>
      ({ s1 with
          singleModeCallback := factory firstValue
          singleModeLastValue := some firstValue
          singleModeHasLastValue := true },
        [.factoryInvoked firstValue, .emitAdd firstValue])
    | none =>
      ({ s1 with
          singleModeLastValue := some firstValue
          singleModeHasLastValue := true },
        [.emitAdd firstValue])
  -- Case: value has changed
  else if s1.singleModeHasLastValue &&
      !(s1.valueComparer (s1.singleModeLastValue.getD .undef) firstValue) then
    let oldValue := s1.singleModeLastValue.getD .undef
    ({ s1 with
        singleModeLastValue := some firstValue
        singleModeHasLastValue := true },
      [.callbackTargetChange firstValue oldValue, .emitChange firstValue oldValue])
  -- Case: value is not changed
  else (s1, [])

/-- Claim C10: in single mode, a falsy-but-not-nil value (such as `0`, the
empty string, `false` or `NaN`) evaluated while no last value is tracked is
treated as absent: the pass performs no action at all — no callback-factory
invocation, no `onAdd` emission, no stored last value, and no
`firstVirtualNode` rebinding. -/
theorem single_mode_falsy_not_added (s : SingleWatcher C) (v : JSVal)
    (hfalsy : v.truthy = false) (hnotnil : v.isNil = false)
    (hnolast : s.singleModeHasLastValue = false) :
    singleModeWatcherCallback s v = (s, []) := by
  have hnotundef : ¬v = JSVal.undef := by
    intro h; subst h; simp [JSVal.isNil] at hnotnil
  have hnotnode : v.isNode = false := by
    cases v <;> simp_all [JSVal.isNode, JSVal.truthy]
  unfold singleModeWatcherCallback
  simp [hnotnode, hnolast, hfalsy, hnotundef]

/-- A fresh single-mode watcher instance with the default value comparer. -/
def swInit : SingleWatcher Unit where
  singleModeLastValue := none
  singleModeHasLastValue := false
  singleModeCallback := none
  firstVirtualNodeBinding := none
  useForeachFn := none
  valueComparer := fun a b => a == b

/-- Witness for claim C10 at the value `0` on a fresh single-mode instance. -/
theorem single_mode_falsy_not_added_witness :
    singleModeWatcherCallback swInit (.num 0) = (swInit, []) :=
  single_mode_falsy_not_added swInit (.num 0) (by decide) (by decide) rfl

/-! ### DomProxy (Proxy.ts): forwarding reference with effect undo / redo

Elements are modelled by the observable state the recorded effect kinds
touch: style properties, registered event listeners (DOM semantics: adding an
already-registered (type, listener) pair is a no-op) and children.  `World`
maps element ids to elements and allocates the placeholder `div`s that
`DomProxy` binds while unbound. -/

structure Elem where
  style : List (String × String)
  listeners : List (String × Nat)
  children : List Nat
deriving DecidableEq

def Elem.empty : Elem :=
  { style := [], listeners := [], children := [] }

def Elem.getStyle (e : Elem) (k : String) : String :=
  ((e.style.find? (fun p => decide (p.1 = k))).map (fun p => p.2)).getD ""

def Elem.setStyle (e : Elem) (k v : String) : Elem :=
  { e with style := jsMapSet e.style k v }

def Elem.addEventListener (e : Elem) (t : String) (f : Nat) : Elem :=
  if (t, f) ∈ e.listeners then e else { e with listeners := e.listeners ++ [(t, f)] }

def Elem.removeEventListener (e : Elem) (t : String) (f : Nat) : Elem :=
  { e with listeners := e.listeners.filter (fun p => !(decide (p = (t, f)))) }

def Elem.appendChild (e : Elem) (c : Nat) : Elem :=
  { e with children := e.children.filter (fun x => !(decide (x = c))) ++ [c] }

def Elem.removeChild (e : Elem) (c : Nat) : Elem :=
  { e with children := e.children.filter (fun x => !(decide (x = c))) }

structure World where
  elems : List (Nat × Elem)
  nextElemId : Nat
deriving DecidableEq

def World.getElem (w : World) (i : Nat) : Option Elem :=
  (w.elems.find? (fun p => decide (p.1 = i))).map (fun p => p.2)

def World.updateElem (w : World) (i : Nat) (f : Elem → Elem) : World :=
  { w with elems := w.elems.map (fun p => if p.1 = i then (p.1, f p.2) else p) }

/-- `document.createElement(...)`: a fresh empty element. -/
def World.createElem (w : World) : Nat × World :=
  (w.nextElemId,
    { elems := w.elems ++ [(w.nextElemId, Elem.empty)], nextElemId := w.nextElemId + 1 })

/-- The recorded mutation-log entries (`changes`) relevant to undo / redo:
method invocations through the forwarding reference (`callMethods` with the
method name dispatched on), style assignments with the overwritten value, and
read-only accesses which have no undo or redo action.  Method calls other
than `appendChild` / `addEventListener` (and the anchor moves `before` /
`after`, which only reposition anchors) are kept by name and never
replayed. -/
inductive ProxyChange where
  | callAddEventListener (eventType : String) (listener : Nat)
  | callAppendChild (child : Nat)
  | callOtherMethod (name : String)
  | modifyStyle (name value originalValue : String)
  | readonlyAccess
deriving DecidableEq

structure DomProxyState where
  isDestroyed : Bool
  current : Nat
  changes : List ProxyChange
deriving DecidableEq

/-- `DomProxy(...)` (Proxy.ts): `current` starts as a freshly created inert
`div`, the mutation log starts empty. -/
def createDomProxy (w : World) : DomProxyState × World :=
  ((fun p => ({ isDestroyed := false, current := p.1, changes := [] }, p.2))
    w.createElem)

/-- `undoEffects(nextCurrent)` (Proxy.ts lines 958-977), iterating the log in
recorded order against the currently bound target: remove recorded event
listeners; restore overwritten style properties to their recorded prior
value.  For `appendChild` with no next target the source reads
`(change.op.thisArg)[0]` — but the recorded `thisArg` is the forwarding proxy
itself, so the read forwards to `current[0]`, which is `undefined` on an
element, and the guarded `current && node && current.removeChild(node)` never
runs; the recorded child is left in place. -/
def undoEffects (nextCurrent : Option Nat) (cur : Nat) (changes : List ProxyChange)
    (w : World) : World :=
  changes.foldl (fun w ch =>
    match ch with
    | .callAddEventListener t f => w.updateElem cur (fun e => e.removeEventListener t f)
    | .callAppendChild _ =>
      if nextCurrent.isNone then
        -- `const node = thisArg[0]` is `undefined`; removal is skipped
        w
      else w
    | .callOtherMethod _ => w
    | .modifyStyle name _ originalValue =>
      w.updateElem cur (fun e => e.setStyle name originalValue)
    | .readonlyAccess => w) w

/-- `redoEffects()` (Proxy.ts lines 979-999), replaying the log in original
order against the newly bound target; only method names on the fixed
allow-list are replayed. -/
def redoEffects (cur : Nat) (changes : List ProxyChange) (w : World) : World :=
  changes.foldl (fun w ch =>
    match ch with
    | .callAddEventListener t f => w.updateElem cur (fun e => e.addEventListener t f)
    | .callAppendChild c => w.updateElem cur (fun e => e.appendChild c)
    | .callOtherMethod _ => w
    | .modifyStyle name value _ => w.updateElem cur (fun e => e.setStyle name value)
    | .readonlyAccess => w) w

/-- A style assignment through the forwarding reference: record
`{name, value, originalValue}` and apply it to the bound target. -/
def proxyStyleSet (p : DomProxyState) (w : World) (name value : String) :
    DomProxyState × World :=
  ({ p with changes := p.changes ++
      [.modifyStyle name value (((w.getElem p.current).getD Elem.empty).getStyle name)] },
    w.updateElem p.current (fun e => e.setStyle name value))

/-- An `addEventListener` call through the forwarding reference. -/
def proxyAddEventListener (p : DomProxyState) (w : World) (t : String) (f : Nat) :
    DomProxyState × World :=
  ({ p with changes := p.changes ++ [.callAddEventListener t f] },
    w.updateElem p.current (fun e => e.addEventListener t f))

/-- An `appendChild` call through the forwarding reference. -/
def proxyAppendChild (p : DomProxyState) (w : World) (c : Nat) :
    DomProxyState × World :=
  ({ p with changes := p.changes ++ [.callAppendChild c] },
    w.updateElem p.current (fun e => e.appendChild c))

/-- The `realCurrent` setter (Proxy.ts lines 1041-1055): no-op when rebinding
to the currently bound target; otherwise undo against the old target, then
either bind an inert placeholder (when unbinding to nothing) or bind the new
target and replay the log against it. -/
def setRealCurrent (p : DomProxyState) (w : World) (node : Option Nat) :
    DomProxyState × World :=
  if node = some p.current then (p, w)
  else
    let w1 := undoEffects node p.current p.changes w
    match node with
    | none =>
      (fun q => ({ p with current := q.1 }, q.2)) w1.createElem
    | some n =>
      ({ p with current := n }, redoEffects n p.changes w1)

/-- `destroy()` (Proxy.ts lines 1056-1066): revokes the forwarding proxy,
detaches the anchor placeholders and drops `current` — but performs no undo,
so every effect previously replayed onto the bound target stays applied. -/
def destroyProxy (p : DomProxyState) (w : World) : DomProxyState × World :=
  ({ p with isDestroyed := true }, w)

theorem Elem.getStyle_setStyle_same (e : Elem) (k v : String) :
    (e.setStyle k v).getStyle k = v := by
  unfold Elem.setStyle Elem.getStyle jsMapSet
  by_cases hmem : (e.style.any (fun p => decide (p.1 = k))) = true
  · rw [if_pos hmem]
    simp only
    rw [find?_map_replace_same v hmem]
    rfl
  · rw [if_neg hmem]
    simp only
    rw [List.find?_append]
    have hnone : e.style.find? (fun p => decide (p.1 = k)) = none := by
      apply List.find?_eq_none.mpr
      intro p hp
      simp only [decide_eq_true_eq]
      intro hpk
      exact hmem (List.any_eq_true.mpr ⟨p, hp, by simpa using hpk⟩)
    simp [hnone]

theorem Elem.listeners_setStyle (e : Elem) (k v : String) :
    (e.setStyle k v).listeners = e.listeners := rfl

theorem Elem.style_addEventListener (e : Elem) (t : String) (f : Nat) :
    (e.addEventListener t f).style = e.style := by
  unfold Elem.addEventListener
  split
  · rfl
  · rfl

theorem Elem.getStyle_addEventListener (e : Elem) (t : String) (f : Nat) (k : String) :
    (e.addEventListener t f).getStyle k = e.getStyle k := by
  unfold Elem.getStyle
  rw [Elem.style_addEventListener]

theorem Elem.mem_addEventListener_self (e : Elem) (t : String) (f : Nat) :
    (t, f) ∈ (e.addEventListener t f).listeners := by
  unfold Elem.addEventListener
  split
  · assumption
  · simp

/-- The claim C3 scenario: create a handle, bind target `a`, assign a style
property and register a listener through the forwarding reference, rebind to
`b`, then rebind back to `a`. -/
def rebindScenario (w0 : World) (a b : Nat) (sn sv et : String) (f : Nat) :
    DomProxyState × World :=
  match createDomProxy w0 with
  | (p0, w1) =>
    match setRealCurrent p0 w1 (some a) with
    | (p1, w2) =>
      match proxyStyleSet p1 w2 sn sv with
      | (p2, w3) =>
        match proxyAddEventListener p2 w3 et f with
        | (p3, w4) =>
          match setRealCurrent p3 w4 (some b) with
          | (p4, w5) => setRealCurrent p4 w5 (some a)

/-- The same effects with the handle never unbound from `a`. -/
def straightScenario (w0 : World) (a : Nat) (sn sv et : String) (f : Nat) :
    DomProxyState × World :=
  match createDomProxy w0 with
  | (p0, w1) =>
    match setRealCurrent p0 w1 (some a) with
    | (p1, w2) =>
      match proxyStyleSet p1 w2 sn sv with
      | (p2, w3) => proxyAddEventListener p2 w3 et f

/-- The two-element world the C3 scenario runs in: target `a` is element 0,
target `b` is element 1. -/
def twoElemWorld (ea eb : Elem) : World :=
  { elems := [(0, ea), (1, eb)], nextElemId := 2 }

/-- Claim C3 as amended: rebinding from A to B and back to A leaves A with
the assigned style value and the registered listener present — exactly the
observable state of the never-unbound run — but the final `destroy()` does
NOT undo the recorded effects: it leaves the world untouched, so the listener
registered through the handle remains on A as a dangling listener. -/
theorem effect_replay_idempotent_rebind (ea eb : Elem) (sn sv et : String) (f : Nat) :
    (∃ ea2, (rebindScenario (twoElemWorld ea eb) 0 1 sn sv et f).2.getElem 0 = some ea2 ∧
      ea2.getStyle sn = sv ∧ (et, f) ∈ ea2.listeners) ∧
    (∃ ea3, (straightScenario (twoElemWorld ea eb) 0 sn sv et f).2.getElem 0 = some ea3 ∧
      ea3.getStyle sn = sv ∧ (et, f) ∈ ea3.listeners) ∧
    (destroyProxy (rebindScenario (twoElemWorld ea eb) 0 1 sn sv et f).1
        (rebindScenario (twoElemWorld ea eb) 0 1 sn sv et f).2).2.getElem 0 =
      (rebindScenario (twoElemWorld ea eb) 0 1 sn sv et f).2.getElem 0 := by
  refine ⟨⟨(((((ea.setStyle sn sv).addEventListener et f).setStyle sn
        (ea.getStyle sn)).removeEventListener et f).setStyle sn sv).addEventListener et f,
      rfl, ?_, ?_⟩,
    ⟨(ea.setStyle sn sv).addEventListener et f, rfl, ?_, ?_⟩, rfl⟩
  · rw [Elem.getStyle_addEventListener, Elem.getStyle_setStyle_same]
  · exact Elem.mem_addEventListener_self _ et f
  · rw [Elem.getStyle_addEventListener, Elem.getStyle_setStyle_same]
  · exact Elem.mem_addEventListener_self _ et f

/-- Counterexample to claim C3 as stated: after the bind / style / listener /
rebind / rebind-back sequence, a final `destroy()` leaves the listener
registered through the handle still present on A — `destroy()` performs no
undo, so a dangling listener remains. -/
theorem destroy_leaves_dangling_listener :
    ("click", 7) ∈
      (((destroyProxy
            (rebindScenario (twoElemWorld Elem.empty Elem.empty) 0 1
              "color" "red" "click" 7).1
            (rebindScenario (twoElemWorld Elem.empty Elem.empty) 0 1
              "color" "red" "click" 7).2).2.getElem 0).getD
        Elem.empty).listeners := by decide

theorem Elem.listeners_removeEventListener (e : Elem) (t : String) (f : Nat) :
    (e.removeEventListener t f).listeners =
      e.listeners.filter (fun p => !(decide (p = (t, f)))) := rfl

theorem getElem_updateElem_same (w : World) (i : Nat) (g : Elem → Elem) :
    (w.updateElem i g).getElem i = (w.getElem i).map g := by
  unfold World.updateElem World.getElem
  simp only
  induction w.elems with
  | nil => simp
  | cons q qs ih =>
    by_cases hq : q.1 = i
    · simp only [List.map_cons, if_pos hq, List.find?_cons]
      have h1 : (decide (q.1 = i)) = true := by simpa using hq
      simp [h1, hq]
    · simp only [List.map_cons, if_neg hq, List.find?_cons]
      have h1 : (decide (q.1 = i)) = false := by simpa using hq
      simp only [h1]
      exact ih

theorem getElem_updateElem_other (w : World) (i j : Nat) (g : Elem → Elem)
    (h : ¬j = i) : (w.updateElem i g).getElem j = w.getElem j := by
  unfold World.updateElem World.getElem
  simp only
  induction w.elems with
  | nil => simp
  | cons q qs ih =>
    by_cases hq : q.1 = i
    · simp only [List.map_cons, if_pos hq, List.find?_cons]
      have h1 : (decide (q.1 = j)) = false := by
        simp only [decide_eq_false_iff_not]
        intro hqj
        exact h (by rw [← hqj, hq])
      have h2 : (decide ((q.1, g q.2).1 = j)) = false := by simpa using h1
      simp only [h2, h1]
      exact ih
    · simp only [List.map_cons, if_neg hq, List.find?_cons]
      cases hqj : (decide (q.1 = j)) with
      | true => simp
      | false => simp only [hqj]; exact ih

/-- The property "the pair (t, f) is not registered on the element bound at
`cur`" is preserved by every single undo action: undo only removes listeners,
skips children and rewrites style. -/
theorem undoStep_preserves_no_listener (nextCurrent : Option Nat) (cur : Nat)
    (w : World) (ch : ProxyChange) (t : String) (f : Nat)
    (hp : ¬(t, f) ∈ (((w.getElem cur).getD Elem.empty).listeners)) :
    ¬(t, f) ∈
      ((((undoEffects nextCurrent cur [ch] w).getElem cur).getD Elem.empty).listeners) := by
  cases ch with
  | callAddEventListener t2 f2 =>
    simp only [undoEffects, List.foldl_cons, List.foldl_nil]
    rw [getElem_updateElem_same]
    cases hge : w.getElem cur with
    | none => simp [Elem.empty]
    | some e =>
      rw [hge] at hp
      simp only [Option.getD_some] at hp
      simp only [Option.map_some', Option.getD_some]
      rw [Elem.listeners_removeEventListener]
      intro hmem
      exact hp (List.mem_filter.mp hmem).1
  | callAppendChild c =>
    simp only [undoEffects, List.foldl_cons, List.foldl_nil]
    cases nextCurrent with
    | none => exact hp
    | some n => exact hp
  | callOtherMethod name =>
    simpa only [undoEffects, List.foldl_cons, List.foldl_nil] using hp
  | modifyStyle name value originalValue =>
    simp only [undoEffects, List.foldl_cons, List.foldl_nil]
    rw [getElem_updateElem_same]
    cases hge : w.getElem cur with
    | none => simp [Elem.empty]
    | some e =>
      rw [hge] at hp
      simp only [Option.map_some', Option.getD_some] at hp ⊢
      simpa [Elem.listeners_setStyle] using hp
  | readonlyAccess =>
    simpa only [undoEffects, List.foldl_cons, List.foldl_nil] using hp

theorem undoEffects_cons (nextCurrent : Option Nat) (cur : Nat) (ch : ProxyChange)
    (rest : List ProxyChange) (w : World) :
    undoEffects nextCurrent cur (ch :: rest) w =
      undoEffects nextCurrent cur rest (undoEffects nextCurrent cur [ch] w) := by
  simp [undoEffects]

theorem undoEffects_preserves_no_listener (nextCurrent : Option Nat) (cur : Nat)
    (t : String) (f : Nat) :
    ∀ (changes : List ProxyChange) (w : World),
      ¬(t, f) ∈ (((w.getElem cur).getD Elem.empty).listeners) →
      ¬(t, f) ∈
        ((((undoEffects nextCurrent cur changes w).getElem cur).getD
          Elem.empty).listeners) := by
  intro changes
  induction changes with
  | nil => intro w hp; simpa [undoEffects] using hp
  | cons ch rest ih =>
    intro w hp
    rw [undoEffects_cons]
    exact ih _ (undoStep_preserves_no_listener nextCurrent cur w ch t f hp)

/-- Undo really unregisters every event listener recorded in the log from the
currently bound target, whatever else the log contains. -/
theorem undoEffects_removes_recorded_listeners (nextCurrent : Option Nat) (cur : Nat)
    (t : String) (f : Nat) :
    ∀ (changes : List ProxyChange) (w : World),
      ProxyChange.callAddEventListener t f ∈ changes →
      ¬(t, f) ∈
        ((((undoEffects nextCurrent cur changes w).getElem cur).getD
          Elem.empty).listeners) := by
  intro changes
  induction changes with
  | nil => intro w hmem; simp at hmem
  | cons ch rest ih =>
    intro w hmem
    rcases List.mem_cons.mp hmem with hch | hrest
    · subst hch
      rw [undoEffects_cons]
      apply undoEffects_preserves_no_listener
      simp only [undoEffects, List.foldl_cons, List.foldl_nil]
      rw [getElem_updateElem_same]
      cases hge : w.getElem cur with
      | none => simp [Elem.empty]
      | some e =>
        simp only [Option.map_some', Option.getD_some]
        rw [Elem.listeners_removeEventListener]
        intro hmem2
        simpa using (List.mem_filter.mp hmem2).2
    · rw [undoEffects_cons]
      exact ih _ hrest

/-- Claim C6 (against the code): with the log holding one `appendChild` for
child 7 and the handle unbinding to nothing, the undo phase leaves child 7
appended to the previously bound target — the source reads the recorded
`thisArg` (the forwarding proxy) instead of the call's `param`, obtains
`undefined`, and skips the `removeChild` call the documentation promises. -/
theorem undo_appendChild_skips_removal :
    (undoEffects none 0 [ProxyChange.callAppendChild 7]
        { elems := [(0, { style := [], listeners := [], children := [7] })],
          nextElemId := 1 }).getElem 0 =
      some { style := [], listeners := [], children := [7] } := rfl
